import Mathlib

/-!
# Verification of the sequal-go ProForma parser and serializer

Shallow embedding of the `sequal` Go package (ProForma 2.1 peptidoform
notation): the notation parser (`ProFormaParser.Parse`), the modification
value / pipe value micro-grammar, the structural validators
(`validateFormula`, `validateGlycan`), the constructors
(`NewModification`, `NewGlobalModification`), the sequence assembly
(`FromProforma`) and the serializer (`ToProforma`).

Modelling conventions:
* Go strings are modelled as `List Char` (`Str`).  All inputs of interest
  are ASCII, where Go's byte indexing and rune iteration coincide.
* Go `float64` is modelled as `Rat`; the parser only ever parses decimal
  literals and compares against zero, which the rationals model exactly.
  IEEE rounding and Go's `%g` shortest-float formatting are not modelled
  bit-for-bit; no theorem below depends on the rendering of a float.
* A Go `panic` is modelled as the `none` / `.panicked` outcome, a returned
  `error` as `.failed`, and a normal return as `.ok`.
* Go maps keyed by position are modelled as insertion-ordered association
  lists: the Go code only ever appends to the list stored under one key,
  so per-key contents are deterministic even though Go's iteration order
  over distinct keys is not.  Where an iteration order over distinct keys
  is observable (the serializer's grouping of unknown-position
  modifications) insertion order is used.
-/

namespace Sequal

/-- Go strings, as lists of characters. -/
abbrev Str := List Char

/-- Coerce a Lean string literal to the model type. -/
def lit (s : String) : Str := s.toList

/-- Index of the first occurrence of `sub` in `s` (Go `strings.Index`),
as an offset; `none` when absent. -/
def indexSub (sub : Str) : Str → Option Nat
  | [] => if sub.isPrefixOf ([] : Str) then some 0 else none
  | c :: rest =>
    if sub.isPrefixOf (c :: rest) then some 0
    else (indexSub sub rest).map (· + 1)

/-- Index of the first occurrence of a character (Go `strings.Index` with a
one-character needle). -/
def indexChar (ch : Char) : Str → Option Nat
  | [] => none
  | c :: rest => if c = ch then some 0 else (indexChar ch rest).map (· + 1)

/-- Go `strings.Contains`. -/
def containsSub (s sub : Str) : Bool := (indexSub sub s).isSome

/-- Go `strings.Contains` for a single character (membership). -/
def containsChar (s : Str) (ch : Char) : Bool := decide (ch ∈ s)

/-- Go `strings.Split` on a single-character separator: splits at every
occurrence, always returns at least one (possibly empty) part. -/
def splitChar (sep : Char) : Str → List Str
  | [] => [[]]
  | c :: rest =>
    if c = sep then [] :: splitChar sep rest
    else
      match splitChar sep rest with
      | [] => [[c]]
      | p :: ps => (c :: p) :: ps

/-- Go `strings.SplitN (s, sep, 2)` for a one-character separator, returned
as the two halves when the separator occurs. -/
def splitN2 (sep : Char) (s : Str) : Option (Str × Str) :=
  match indexChar sep s with
  | none => none
  | some i => some (s.take i, s.drop (i + 1))

/-- Go `strings.Split` on a multi-character separator (used for `"//"`),
fuelled; `fuel ≥ length + 1` always suffices. -/
def splitSubAux (sep : Str) : Nat → Str → List Str
  | 0, s => [s]
  | fuel + 1, s =>
    match indexSub sep s with
    | none => [s]
    | some i => s.take i :: splitSubAux sep fuel (s.drop (i + sep.length))

/-- Go `strings.Split` on a non-empty separator. -/
def splitSub (sep : Str) (s : Str) : List Str := splitSubAux sep (s.length + 1) s

/-- Go `strings.HasPrefix`. -/
def hasPrefix (s pre : Str) : Bool := pre.isPrefixOf s

/-- Go `strings.HasSuffix`. -/
def hasSuffix (s suf : Str) : Bool := suf.isSuffixOf s

/-- Go `strings.TrimPrefix`. -/
def trimPrefix (s pre : Str) : Str := if pre.isPrefixOf s then s.drop pre.length else s

/-- ASCII upper-casing of a string (Go `strings.ToUpper`; the parser only
upper-cases ASCII source tags). -/
def toUpperStr (s : Str) : Str := s.map Char.toUpper

/-- The decimal digit character for `k < 10`. -/
def digitChar (k : Nat) : Char :=
  ['0', '1', '2', '3', '4', '5', '6', '7', '8', '9'].getD k '0'

/-- Fuelled decimal rendering (most significant digit first). -/
def natDigitsAux : Nat → Nat → Str
  | 0, _ => []
  | fuel + 1, n => if n < 10 then [digitChar n] else natDigitsAux fuel (n / 10) ++ [digitChar (n % 10)]

/-- Decimal digits of a natural number (Go `strconv.Itoa` / `%d` on a
non-negative value). -/
def natDigits (n : Nat) : Str := natDigitsAux (n + 1) n

/-- Go `strconv.Itoa` / `%d` for integers. -/
def intDigits (z : Int) : Str :=
  if z < 0 then '-' :: natDigits z.natAbs else natDigits z.natAbs

/-- Numeric value of a non-empty all-digit string. -/
def digitsToNat (s : Str) : Nat := s.foldl (fun acc c => acc * 10 + (c.toNat - '0'.toNat)) 0

/-- Go `strconv.Atoi`: optional sign then one or more digits.  Integer
overflow (which makes the Go function return an error) is not modelled; no
claim exercises counts near 2^63. -/
def goAtoi (s : Str) : Option Int :=
  match s with
  | [] => none
  | '+' :: rest =>
    if rest ≠ [] ∧ rest.all Char.isDigit then some (digitsToNat rest : Int) else none
  | '-' :: rest =>
    if rest ≠ [] ∧ rest.all Char.isDigit then some (-(digitsToNat rest : Int)) else none
  | _ =>
    if s.all Char.isDigit then some (digitsToNat s : Int) else none

/-- Go `strconv.ParseFloat` restricted to the decimal forms the package
feeds it: optional sign, integer and/or fractional digits, optional
decimal exponent.  (`Inf`/`NaN`/hex-float spellings are not modelled; the
package never produces them.)  The value is returned exactly, as a
rational. -/
def goParseFloat (s : Str) : Option Rat :=
  let core : Str → Option Rat := fun t =>
    let ip := t.takeWhile Char.isDigit
    let rest1 := t.dropWhile Char.isDigit
    let withFrac : Option (Rat × Str) :=
      match rest1 with
      | '.' :: r =>
        let fp := r.takeWhile Char.isDigit
        let r2 := r.dropWhile Char.isDigit
        if ip = [] ∧ fp = [] then none
        else some ((digitsToNat ip : Rat) + (digitsToNat fp : Rat) / ((10 : Rat) ^ fp.length), r2)
      | r => if ip = [] then none else some ((digitsToNat ip : Rat), r)
    match withFrac with
    | none => none
    | some (v, rest2) =>
      match rest2 with
      | [] => some v
      | e :: r3 =>
        if e = 'e' ∨ e = 'E' then
          match goAtoi r3 with
          | some z => if r3 ≠ [] then some (v * (10 : Rat) ^ z) else none
          | none => none
        else none
  match s with
  | [] => none
  | '+' :: rest => core rest
  | '-' :: rest => (core rest).map Neg.neg
  | _ => core s

/-! ## Structural validators (`modification_value.go`, `validateFormula` /
`validateGlycan`) -/

/-- Whether a string contains a digit immediately followed by an uppercase
letter.  This is exactly when Go's unanchored
`regexp.MatchString("\\d+[A-Z][a-z]?(-?\\d+)?", s)` succeeds: the trailing
groups are optional, so a match exists iff some digit is followed by an
upper-case letter. -/
def hasDigitThenUpper : Str → Bool
  | [] => false
  | [_] => false
  | a :: b :: rest => (a.isDigit && b.isUpper) || hasDigitThenUpper (b :: rest)

/-- The optional signed count after an element or isotope token in
`validateFormula`: a `-` (with any following digits) or a digit run is
consumed, anything else is left in place. -/
def skipSignedCount : Str → Str
  | '-' :: rest => rest.dropWhile Char.isDigit
  | s => if (s.head?.map Char.isDigit).getD false then s.dropWhile Char.isDigit else s

/-- Scanning loop of `validateFormula` (fuelled; each step consumes at
least one character, so `fuel ≥ length + 1` suffices). -/
def vfLoop : Nat → Str → Bool
  | 0, _ => false
  | _ + 1, [] => true
  | fuel + 1, '[' :: rest =>
    match indexChar ']' rest with
    | none => false
    | some k =>
      if hasDigitThenUpper (rest.take k) then vfLoop fuel (skipSignedCount (rest.drop (k + 1)))
      else false
  | fuel + 1, c :: rest =>
    if c.isUpper then
      let rest1 :=
        match rest with
        | d :: r => if d.isLower then r else rest
        | [] => []
      vfLoop fuel (skipSignedCount rest1)
    else false

/-- `validateFormula` from `modification_value.go`: rejects all-whitespace
text and unbalanced bracket counts, removes spaces, then scans element and
isotope tokens left to right. -/
def validateFormula (formula : Str) : Bool :=
  if formula.all Char.isWhitespace then false
  else if formula.count '[' ≠ formula.count ']' then false
  else
    let f := formula.filter (· ≠ ' ')
    vfLoop (f.length + 1) f

/-- The known monosaccharide names in the order produced by the Go
length-descending sort.  Only the relative order of different lengths is
fixed by the sort; equal-length names never prefix-match the same text, so
any order among them yields the same matcher. -/
def monosOrdered : List Str :=
  [lit "HexNAcS", lit "HexNAc", lit "NeuAc", lit "NeuGc", lit "dHex",
   lit "HexS", lit "HexP", lit "Hex", lit "Pen", lit "Fuc"]

/-- First monosaccharide name in the ordered list that is a prefix of `s`
(the regex alternation tries the alternatives in list order). -/
def matchMono (s : Str) : Option Str := monosOrdered.find? (fun m => m.isPrefixOf s)

/-- The optional count after a glycan token: `(\([1-9]\d*\))|[1-9]\d*`.
Returns the remainder after the count when one is present.  Inside
parentheses the digit run must be immediately followed by `)`; a leading
zero never matches. -/
def matchCount : Str → Option Str
  | '(' :: r =>
    let d := r.takeWhile Char.isDigit
    if d ≠ [] ∧ d.head? ≠ some '0' then
      match r.dropWhile Char.isDigit with
      | ')' :: r3 => some r3
      | _ => none
    else none
  | s =>
    let d := s.takeWhile Char.isDigit
    if d ≠ [] ∧ d.head? ≠ some '0' then some (s.dropWhile Char.isDigit) else none

/-- Custom monosaccharide token
`\{([A-Za-z0-9]+)(:z[+-]\d+)?\}((\([1-9]\d*\))|[1-9]\d*)?` of
`validateGlycan`: returns the formula text, whether a count followed, and
the remainder. -/
def matchCustom : Str → Option (Str × Bool × Str)
  | '{' :: r =>
    let A := r.takeWhile Char.isAlphanum
    let r1 := r.dropWhile Char.isAlphanum
    if A = [] then none
    else
      let afterBrace : Option Str :=
        match r1 with
        | '}' :: r2 => some r2
        | ':' :: 'z' :: sgn :: r2 =>
          if sgn = '+' ∨ sgn = '-' then
            let d := r2.takeWhile Char.isDigit
            if d ≠ [] then
              match r2.dropWhile Char.isDigit with
              | '}' :: r3 => some r3
              | _ => none
            else none
          else none
        | _ => none
      match afterBrace with
      | none => none
      | some r2 =>
        match matchCount r2 with
        | some r3 => some (A, true, r3)
        | none => some (A, false, r2)
  | _ => none

/-- Scanning loop of `validateGlycan` (fuelled; each step consumes at
least one character). -/
def vgLoop : Nat → Str → Bool
  | 0, _ => false
  | _ + 1, [] => true
  | fuel + 1, s =>
    match matchCustom s with
    | some (A, hasCount, rest) =>
      if validateFormula A then
        if hasCount then vgLoop fuel rest
        else decide (rest = [])
      else false
    | none =>
      match matchMono s with
      | some m =>
        let rest0 := s.drop m.length
        match matchCount rest0 with
        | some rest => vgLoop fuel rest
        | none => decide (rest0 = [])
      | none => false

/-- `validateGlycan` from `modification_value.go`: removes spaces, then
scans custom `{formula}` tokens (formula re-validated, optional `:z±N`
charge) and known monosaccharide tokens (longest-match-first), each with
an optional `N` / `(N)` count whose first digit is non-zero; a missing
count is accepted only on the final token. -/
def validateGlycan (glycan : Str) : Bool :=
  let c := glycan.filter (· ≠ ' ')
  vgLoop (c.length + 1) c

example : validateGlycan (lit "HexNAc") = true := by decide
example : validateGlycan (lit "HexNAcHex") = false := by decide
example : validateGlycan (lit "HexNAc0") = false := by decide
example : validateGlycan (lit "HexNAc2Hex") = true := by decide
example : validateGlycan (lit "") = true := by decide
example : validateFormula (lit "C2H3NO") = true := by decide
example : validateFormula (lit "[13C2]H2N") = true := by decide
example : validateFormula (lit "Acetyl") = false := by decide

/-- Count strings of claim C4's token grammar: the decimal rendering of a
count of at least 1, bare or parenthesised.  (This definition follows the
specification's words, for comparison against `validateGlycan`.) -/
inductive CountStr : Str → Prop where
  | bare (n : Nat) (h : 1 ≤ n) : CountStr (natDigits n)
  | paren (n : Nat) (h : 1 ≤ n) : CountStr ('(' :: (natDigits n ++ [')']))

/-- Tokens of claim C4's glycan grammar: a known monosaccharide name, or a
custom brace token whose alphanumeric content passes the formula
validator (optionally with a `:z±N` charge inside the braces).  (Also a
specification-side definition.) -/
inductive GlyTok : Str → Prop where
  | mono (m : Str) (hm : m ∈ monosOrdered) : GlyTok m
  | custom (A : Str) (hA : A ≠ []) (hAl : A.all Char.isAlphanum = true)
      (hF : validateFormula A = true) : GlyTok ('{' :: (A ++ ['}']))
  | customCharge (A : Str) (sgn : Char) (ds : Str) (hA : A ≠ [])
      (hAl : A.all Char.isAlphanum = true) (hF : validateFormula A = true)
      (hs : sgn = '+' ∨ sgn = '-') (hds : ds ≠ []) (hdig : ds.all Char.isDigit = true) :
      GlyTok ('{' :: (A ++ ':' :: 'z' :: sgn :: (ds ++ ['}'])))

/-- Claim C4's glycan grammar: a sequence of tokens, each followed by a
count, where the count may be omitted only on the final token.  (Also a
specification-side definition.) -/
inductive GlyGrammar : Str → Prop where
  | nil : GlyGrammar []
  | last (t : Str) (ht : GlyTok t) : GlyGrammar t
  | cons (t c rest : Str) (ht : GlyTok t) (hc : CountStr c) (hrest : GlyGrammar rest) :
      GlyGrammar (t ++ (c ++ rest))

/-! ## Pipe values (`pipe_value.go`) -/

/-- The pipe value type tags of `pipe_value.go`. -/
inductive PVType where
  | synonym | infoTag | mass | observedMass | crosslink
  | branch | ambiguity | glycan | gap | formula
deriving DecidableEq

/-- `PipeValue` of `pipe_value.go`. -/
structure GoPipeValue where
  value : Str
  valueType : PVType
  crosslinkID : Option Str := none
  isBranch : Bool := false
  isBranchRef : Bool := false
  isCrosslinkRef : Bool := false
  ambiguityGroup : Option Str := none
  isAmbiguityRef : Bool := false
  localizationScore : Option Rat := none
  source : Option Str := none
  originalValue : Option Str := none
  mass : Option Rat := none
  observedMass : Option Rat := none
  isValidGlycan : Bool := false
  isValidFormula : Bool := false
  assignedTypes : List PVType := []
  charge : Option Str := none
  chargeValue : Option Int := none
deriving DecidableEq

/-- Leftmost match of the localization-score pattern `\(([\d.]+)\)`: the
first `(` followed by a non-empty run of digits and dots that is
immediately closed by `)`; returns the run. -/
def findParenScore : Str → Option Str
  | [] => none
  | '(' :: r =>
    let d := r.takeWhile (fun c => c.isDigit || c = '.')
    if d ≠ [] ∧ (r.dropWhile (fun c => c.isDigit || c = '.')).head? = some ')' then some d
    else findParenScore r
  | _ :: r => findParenScore r

/-- `ReplaceAllString` with the pattern `\(([\d.]+)\)` and an empty
replacement: removes every non-overlapping leftmost match (fuelled). -/
def removeParenScores : Nat → Str → Str
  | 0, s => s
  | fuel + 1, s =>
    match s with
    | [] => []
    | '(' :: r =>
      let d := r.takeWhile (fun c => c.isDigit || c = '.')
      let r2 := r.dropWhile (fun c => c.isDigit || c = '.')
      if d ≠ [] ∧ r2.head? = some ')' then removeParenScores fuel (r2.drop 1)
      else '(' :: removeParenScores fuel r
    | c :: r => c :: removeParenScores fuel r

/-- Remove all localization-score parentheses from a group string. -/
def cleanScoreGroup (g : Str) : Str := removeParenScores (g.length + 1) g

/-- Suffix match for the charged-formula pattern `:z([+-]\d+)$`: returns
the signed digit string and the value with the suffix removed. -/
def matchChargeSuffix (v : Str) : Option (Str × Str) :=
  let rv := v.reverse
  let ds := rv.takeWhile Char.isDigit
  match rv.drop ds.length with
  | sgn :: 'z' :: ':' :: rest =>
    if ds ≠ [] ∧ (sgn = '+' ∨ sgn = '-') then some (sgn :: ds.reverse, rest.reverse)
    else none
  | _ => none

/-- `PipeValue.extractProperties`. -/
def extractProperties (pv : GoPipeValue) : GoPipeValue :=
  let pv :=
    if pv.valueType = PVType.crosslink ∧ containsChar pv.value '#' then
      match splitN2 '#' pv.value with
      | some (_, special) =>
        if special = lit "BRANCH" then { pv with isBranch := true }
        else { pv with crosslinkID := some special }
      | none => pv
    else if pv.valueType = PVType.ambiguity ∧ containsChar pv.value '#' then
      match splitN2 '#' pv.value with
      | some (_, group) =>
        let pv := { pv with ambiguityGroup := some group }
        if containsChar group '(' ∧ containsChar group ')' then
          match findParenScore group with
          | some d =>
            match goParseFloat d with
            | some sc => { pv with localizationScore := some sc }
            | none => pv
          | none => pv
        else pv
      | none => pv
    else pv
  if pv.valueType = PVType.formula then
    match matchChargeSuffix pv.value with
    | some (sd, stripped) =>
      { pv with charge := some ('z' :: sd), chargeValue := goAtoi sd, value := stripped }
    | none => pv
  else pv

/-- `NewPipeValue`. -/
def newPipeValue (value : Str) (valueType : PVType) (originalValue : Str) : GoPipeValue :=
  extractProperties
    { value := value, valueType := valueType,
      originalValue := if originalValue = [] then none else some originalValue }

/-- `PipeValue.AssignType`: append the type unless already assigned. -/
def pvAssignType (pv : GoPipeValue) (t : PVType) : GoPipeValue :=
  if pv.assignedTypes.contains t then pv
  else { pv with assignedTypes := pv.assignedTypes ++ [t] }

/-- `PipeValue.SetType`: change the type and the first assigned slot. -/
def pvSetType (pv : GoPipeValue) (t : PVType) : GoPipeValue :=
  let pv' := { pv with valueType := t }
  match pv'.assignedTypes with
  | [] => pvAssignType pv' t
  | _ :: rest => { pv' with assignedTypes := t :: rest }

/-! ## Modification values (`modification_value.go`) -/

/-- `ModificationValue` of `modification_value.go` (the constant
`knownSources` table is kept globally rather than per value). -/
structure GoModValue where
  primaryValue : Str := []
  source : Option Str := none
  mass : Option Rat := none
  pipeValues : List GoPipeValue := []
deriving DecidableEq

/-- The known source tags of `KnownSources` / `mv.knownSources` (the two
Go tables have identical contents). -/
def knownSources : List Str :=
  [lit "Unimod", lit "U", lit "PSI-MOD", lit "M", lit "RESID", lit "R",
   lit "XL-MOD", lit "X", lit "XLMOD", lit "GNO", lit "G", lit "MOD",
   lit "Obs", lit "Formula", lit "FORMULA", lit "GLYCAN", lit "Glycan",
   lit "Info", lit "INFO", lit "OBS", lit "XL"]

/-- Membership in the known-sources table. -/
def isKnownSource (s : Str) : Bool := knownSources.contains s

/-- Whether a string contains a digit (`containsDigit`). -/
def containsDigit (s : Str) : Bool := s.any Char.isDigit

/-- `ModificationValue.processPrimaryValue`.  Total: the primary-value
path never dereferences a nil source. -/
def processPrimaryValue (mv : GoModValue) (value : Str) : GoModValue :=
  if value = lit "#BRANCH" then
    let pv := { newPipeValue value PVType.branch value with isBranchRef := true, isBranch := true }
    { mv with primaryValue := [], pipeValues := mv.pipeValues ++ [pv] }
  else if hasPrefix value (lit "#") then
    let tail := value.drop 1
    let vt : PVType :=
      if containsChar tail '(' ∧ containsChar tail ')' then PVType.ambiguity else PVType.crosslink
    let pv1 := { newPipeValue value vt value with
                 isCrosslinkRef := vt = PVType.crosslink, isAmbiguityRef := vt = PVType.ambiguity }
    let pv2 := if pv1.isCrosslinkRef then { pv1 with crosslinkID := some tail } else pv1
    let pv3 :=
      if pv2.isAmbiguityRef then
        let pv := { pv2 with ambiguityGroup := some tail }
        if containsChar tail '(' ∧ containsChar tail ')' then
          match findParenScore tail with
          | some d =>
            match goParseFloat d with
            | some sc =>
              { pv with localizationScore := some sc, ambiguityGroup := some (cleanScoreGroup tail) }
            | none => pv
          | none => pv
        else pv
      else pv2
    { mv with primaryValue := [], pipeValues := mv.pipeValues ++ [pv3] }
  else if containsChar value ':' then
    match splitN2 ':' value with
    | none => mv
    | some (p0, p1) =>
      if isKnownSource p0 then
        let source := p0
        let mv := { mv with source := some source }
        if p1 = [] then { mv with primaryValue := [] }
        else
          let chargeInfo : Option Str × Option Int × Str :=
            if toUpperStr source = lit "FORMULA" then
              match matchChargeSuffix p1 with
              | some (sd, stripped) => (some ('z' :: sd), goAtoi sd, stripped)
              | none => (none, none, p1)
            else (none, none, p1)
          let chargeStr := chargeInfo.1
          let chargeValue := chargeInfo.2.1
          let valueStr := chargeInfo.2.2
          let mv := { mv with primaryValue := valueStr }
          if containsChar valueStr '#' then
            match splitN2 '#' valueStr with
            | none => mv
            | some (baseValue, specialPart) =>
              let pv := { newPipeValue baseValue PVType.synonym valueStr with source := some source }
              let mv := { mv with pipeValues := mv.pipeValues ++ [pv] }
              if specialPart = lit "BRANCH" then
                let bv := { newPipeValue valueStr PVType.branch valueStr with
                            isBranch := true, source := some source }
                { mv with pipeValues := mv.pipeValues ++ [bv] }
              else if containsChar specialPart '(' ∧ containsChar specialPart ')' then
                let av1 := { newPipeValue valueStr PVType.ambiguity valueStr with
                             ambiguityGroup := some specialPart, source := some source }
                let av2 :=
                  match findParenScore specialPart with
                  | some d =>
                    match goParseFloat d with
                    | some sc =>
                      { av1 with localizationScore := some sc,
                                 ambiguityGroup := some (cleanScoreGroup specialPart) }
                    | none => av1
                  | none => av1
                { mv with pipeValues := mv.pipeValues ++ [av2] }
              else
                let xv := { newPipeValue valueStr PVType.crosslink valueStr with
                            crosslinkID := some specialPart, source := some source }
                { mv with pipeValues := mv.pipeValues ++ [xv] }
          else
            let pv0 := { newPipeValue valueStr PVType.synonym valueStr with source := some source }
            let pv :=
              if toUpperStr source = lit "FORMULA" then
                { (pvSetType pv0 PVType.formula) with
                  isValidFormula := validateFormula valueStr,
                  charge := chargeStr, chargeValue := chargeValue }
              else if toUpperStr source = lit "GLYCAN" then
                { (pvSetType pv0 PVType.glycan) with isValidGlycan := validateGlycan valueStr }
              else pv0
            { mv with pipeValues := mv.pipeValues ++ [pv] }
      else if toUpperStr p0 = lit "MASS" then
        let mv := { mv with primaryValue := p1 }
        match goParseFloat p1 with
        | some m =>
          let pv := { newPipeValue p1 PVType.mass value with mass := some m }
          { mv with mass := some m, pipeValues := mv.pipeValues ++ [pv] }
        | none =>
          { mv with pipeValues := mv.pipeValues ++ [newPipeValue value PVType.infoTag value] }
      else
        { mv with primaryValue := value,
                  pipeValues := mv.pipeValues ++ [newPipeValue value PVType.infoTag value] }
  else if containsChar value '#' then
    match splitN2 '#' value with
    | none => mv
    | some (baseValue, specialPart) =>
      let mv := { mv with primaryValue := baseValue }
      let mv :=
        if baseValue ≠ [] then
          { mv with pipeValues := mv.pipeValues ++ [newPipeValue baseValue PVType.synonym value] }
        else mv
      if specialPart = lit "BRANCH" then
        { mv with pipeValues := mv.pipeValues ++
            [{ newPipeValue value PVType.branch value with isBranch := true }] }
      else if containsChar specialPart '(' ∧ containsChar specialPart ')' then
        let av1 := { newPipeValue value PVType.ambiguity value with ambiguityGroup := some specialPart }
        let av2 :=
          match findParenScore specialPart with
          | some d =>
            match goParseFloat d with
            | some sc =>
              { av1 with localizationScore := some sc,
                         ambiguityGroup := some (cleanScoreGroup specialPart) }
            | none => av1
          | none => av1
        { mv with pipeValues := mv.pipeValues ++ [av2] }
      else
        { mv with pipeValues := mv.pipeValues ++
            [{ newPipeValue value PVType.crosslink value with crosslinkID := some specialPart }] }
  else
    let mv := { mv with primaryValue := value }
    let massAttempt : Option GoModValue :=
      if hasPrefix value (lit "+") ∨ hasPrefix value (lit "-") then
        let massStr := if hasPrefix value (lit "+") then value.drop 1 else value
        match goParseFloat massStr with
        | some m0 =>
          -- The Go code negates the parsed value again when the text
          -- starts with '-', so "-17" yields a stored mass of +17.
          let m := if hasPrefix value (lit "-") then -m0 else m0
          some { mv with mass := some m,
                         pipeValues := mv.pipeValues ++
                           [{ newPipeValue value PVType.mass value with mass := some m }] }
        | none => none
      else none
    match massAttempt with
    | some mv' => mv'
    | none =>
      let mv := { mv with pipeValues := mv.pipeValues ++ [newPipeValue value PVType.synonym value] }
      if validateGlycan value then
        { mv with pipeValues := mv.pipeValues ++
            [{ newPipeValue value PVType.glycan value with isValidGlycan := true }] }
      else if validateFormula value then
        { mv with pipeValues := mv.pipeValues ++
            [{ newPipeValue value PVType.formula value with isValidFormula := true }] }
      else mv

/-- `ModificationValue._processPipeComponent`.  Returns `none` exactly
where the Go code panics: the branches at `modification_value.go:702` and
`:725` dereference `*mv.source`, which is nil whenever the primary value
carried no known source tag. -/
def processPipeComponent (mv : GoModValue) (component : Str) : Option GoModValue :=
  if component = lit "#BRANCH" then
    some { mv with pipeValues := mv.pipeValues ++
      [{ newPipeValue component PVType.branch component with isBranchRef := true, isBranch := true }] }
  else if hasPrefix component (lit "#") then
    let tail := component.drop 1
    let vt : PVType := if hasPrefix tail (lit "XL") then PVType.crosslink else PVType.ambiguity
    let pv1 := { newPipeValue component vt component with
                 isCrosslinkRef := vt = PVType.crosslink, isAmbiguityRef := vt = PVType.ambiguity }
    let pv2 := if pv1.isCrosslinkRef then { pv1 with crosslinkID := some tail } else pv1
    let pv3 :=
      if pv2.isAmbiguityRef then
        let pv := { pv2 with ambiguityGroup := some tail }
        if containsChar tail '(' ∧ containsChar tail ')' then
          match findParenScore tail with
          | some d =>
            match goParseFloat d with
            | some sc =>
              { pv with localizationScore := some sc, ambiguityGroup := some (cleanScoreGroup tail) }
            | none => pv
          | none => pv
        else pv
      else pv2
    some { mv with pipeValues := mv.pipeValues ++ [pv3] }
  else if containsChar component ':' then
    match splitN2 ':' component with
    | none => some mv
    | some (p0, p1) =>
      if isKnownSource p0 then
        let source := p0
        let chargeInfo : Option Str × Option Int × Str :=
          if toUpperStr source = lit "FORMULA" then
            match matchChargeSuffix p1 with
            | some (sd, stripped) => (some ('z' :: sd), goAtoi sd, stripped)
            | none => (none, none, p1)
          else (none, none, p1)
        let chargeStr := chargeInfo.1
        let chargeValue := chargeInfo.2.1
        let value0 := chargeInfo.2.2
        if containsChar value0 '#' then
          match splitN2 '#' value0 with
          | none => some mv
          | some (value, special) =>
            let isValidG := if toUpperStr source = lit "GLYCAN" then validateGlycan value else false
            let isValidF := if toUpperStr source = lit "FORMULA" then validateFormula value else false
            if source = lit "XL" ∨ source = lit "XLMOD" ∨ source = lit "XL-MOD" ∨ source = lit "X" then
              some { mv with pipeValues := mv.pipeValues ++
                [{ newPipeValue value PVType.crosslink component with
                   source := some source, crosslinkID := some special }] }
            else if special = lit "BRANCH" then
              some { mv with pipeValues := mv.pipeValues ++
                [{ newPipeValue value PVType.branch component with
                   source := some source, isBranch := true }] }
            else if toUpperStr source = lit "GLYCAN" then
              some { mv with pipeValues := mv.pipeValues ++
                [{ newPipeValue value PVType.glycan component with
                   source := some source, isValidGlycan := isValidG }] }
            else
              -- `ToUpper(source)=="GNO" || ToUpper(*mv.source)=="G"`:
              -- short-circuit; a nil primary source panics here.
              match
                (if toUpperStr source = lit "GNO" then some true
                 else match mv.source with
                   | none => none
                   | some ps => some (toUpperStr ps = lit "G")) with
              | none => none
              | some gno =>
                if gno then
                  some { mv with pipeValues := mv.pipeValues ++
                    [{ newPipeValue value PVType.glycan component with
                       source := some source, isValidGlycan := true }] }
                else
                  let pv0 := { newPipeValue value PVType.ambiguity component with source := some source }
                  let pv1 :=
                    if isValidG then { (pvAssignType pv0 PVType.glycan) with isValidGlycan := true }
                    else if isValidF then { (pvAssignType pv0 PVType.formula) with isValidFormula := true }
                    else pv0
                  -- the same disjunction is re-tested here (line 725); it
                  -- is false on this path, so the gap assignment is dead,
                  -- and the dereference cannot panic a second time.
                  let pv2 := { pv1 with ambiguityGroup := some special }
                  let pv3 :=
                    match findParenScore special with
                    | some d =>
                      match goParseFloat d with
                      | some sc =>
                        if containsChar special '(' ∧ containsChar special ')' then
                          { pv2 with localizationScore := some sc,
                                     ambiguityGroup := some (cleanScoreGroup special) }
                        else pv2
                      | none => pv2
                    | none => pv2
                  some { mv with pipeValues := mv.pipeValues ++ [pv3] }
        else
          let pv :=
            if toUpperStr source = lit "INFO" then
              newPipeValue value0 PVType.infoTag component
            else if toUpperStr source = lit "OBS" then
              let pv0 := newPipeValue value0 PVType.observedMass component
              match goParseFloat value0 with
              | some om => { pv0 with observedMass := some om }
              | none => pv0
            else if toUpperStr source = lit "GLYCAN" then
              { newPipeValue value0 PVType.glycan component with isValidGlycan := validateGlycan value0 }
            else if toUpperStr source = lit "GNO" ∨ toUpperStr source = lit "G" then
              { newPipeValue value0 PVType.glycan component with isValidGlycan := true }
            else if toUpperStr source = lit "FORMULA" then
              { newPipeValue value0 PVType.formula component with
                isValidFormula := validateFormula value0,
                charge := chargeStr, chargeValue := chargeValue }
            else
              newPipeValue value0 PVType.synonym component
          some { mv with pipeValues := mv.pipeValues ++ [{ pv with source := some source }] }
      else if toUpperStr p0 = lit "MASS" then
        match goParseFloat p1 with
        | some m =>
          let pv := { newPipeValue p1 PVType.mass component with mass := some m }
          -- parts[1] parsed as a float, so it cannot contain '#'; the Go
          -- branch guarded by that test is unreachable and both arms of
          -- the conditional below coincide.
          let pv := if containsChar p1 '#' then pv else pv
          some { mv with pipeValues := mv.pipeValues ++ [pv] }
        | none =>
          some { mv with pipeValues := mv.pipeValues ++ [newPipeValue component PVType.synonym component] }
      else
        some { mv with pipeValues := mv.pipeValues ++ [newPipeValue component PVType.synonym component] }
  else if containsChar component '#' then
    match splitN2 '#' component with
    | none => some mv
    | some (value, special) =>
      let pv0 :=
        if special = lit "BRANCH" then
          { newPipeValue value PVType.branch component with isBranch := true }
        else if hasPrefix special (lit "XL") then
          { newPipeValue value PVType.crosslink component with crosslinkID := some special }
        else
          let av1 := { newPipeValue value PVType.ambiguity component with ambiguityGroup := some special }
          if containsChar special '(' ∧ containsChar special ')' then
            match findParenScore special with
            | some d =>
              match goParseFloat d with
              | some sc =>
                { av1 with localizationScore := some sc,
                           ambiguityGroup := some (cleanScoreGroup special) }
              | none => av1
            | none => av1
          else av1
      let pv1 :=
        if (hasPrefix value (lit "+") ∨ hasPrefix value (lit "-")) ∧ containsDigit value then
          match goParseFloat value with
          | some m => pvAssignType { pv0 with mass := some m } PVType.mass
          | none => pv0
        else pvAssignType pv0 PVType.synonym
      some { mv with pipeValues := mv.pipeValues ++ [pv1] }
  else
    if (hasPrefix component (lit "+") ∨ hasPrefix component (lit "-")) ∧ containsDigit component then
      match goParseFloat component with
      | some m =>
        some { mv with pipeValues := mv.pipeValues ++
          [{ newPipeValue component PVType.mass component with mass := some m }] }
      | none =>
        some { mv with pipeValues := mv.pipeValues ++ [newPipeValue component PVType.synonym component] }
    else
      some { mv with pipeValues := mv.pipeValues ++ [newPipeValue component PVType.synonym component] }

/-- `NewModificationValue` (returns `none` where the Go constructor
panics while classifying a pipe component). -/
def newModificationValue (value : Str) (mass : Option Rat) : Option GoModValue :=
  let mv0 : GoModValue := { mass := mass }
  if containsChar value '|' then
    match splitChar '|' value with
    | [] => some mv0
    | c0 :: rest => rest.foldlM processPipeComponent (processPrimaryValue mv0 c0)
  else
    some (processPrimaryValue mv0 value)

/-- `ModificationValue.GetCrosslinkID`. -/
def mvCrosslinkID (mv : GoModValue) : Option Str :=
  (mv.pipeValues.find? (fun pv => pv.valueType = PVType.crosslink ∧ pv.crosslinkID.isSome)).bind
    (·.crosslinkID)

/-- `ModificationValue.IsCrosslinkRef`. -/
def mvIsCrosslinkRef (mv : GoModValue) : Bool :=
  mv.pipeValues.any (fun pv => pv.valueType = PVType.crosslink ∧ pv.isCrosslinkRef)

/-- `ModificationValue.GetAmbiguityGroup`. -/
def mvAmbiguityGroup (mv : GoModValue) : Option Str :=
  (mv.pipeValues.find? (fun pv => pv.valueType = PVType.ambiguity ∧ pv.ambiguityGroup.isSome)).bind
    (·.ambiguityGroup)

/-- `ModificationValue.IsAmbiguityRef`. -/
def mvIsAmbiguityRef (mv : GoModValue) : Bool :=
  mv.pipeValues.any (fun pv => pv.valueType = PVType.ambiguity ∧ pv.isAmbiguityRef)

/-- `ModificationValue.GetObservedMass`. -/
def mvObservedMass (mv : GoModValue) : Option Rat :=
  (mv.pipeValues.find? (fun pv => pv.valueType = PVType.observedMass ∧ pv.observedMass.isSome)).bind
    (·.observedMass)

/-! ## Modifications (`modification.go`, ProForma 2.1 revision) -/

/-- `Modification` (the ProForma 2.1 revision of the struct, with
placement controls and the ion-type flag).  The `BaseBlock` fields
(`value`, `position`, `mass`; `branch` is constantly `true` for
modifications) are inlined. -/
structure GoMod where
  value : Str
  position : Option Int := none
  mass : Option Rat := none
  source : Option Str := none
  originalValue : Str := []
  crosslinkID : Option Str := none
  isCrosslinkRef : Bool := false
  isBranchRef : Bool := false
  isBranch : Bool := false
  isAmbiguityRef : Bool := false
  ambiguityGroup : Option Str := none
  inRange : Bool := false
  rangeStart : Option Int := none
  rangeEnd : Option Int := none
  localizationScore : Option Rat := none
  modValue : GoModValue := {}
  regexPattern : Option Str := none
  modType : Str := []
  labile : Bool := false
  labilNumber : Int := 0
  fullName : Option Str := none
  allFilled : Bool := false
  positionConstraint : List Str := []
  limitPerPosition : Option Int := none
  colocalizeKnown : Bool := false
  colocalizeUnknown : Bool := false
  isIonType : Bool := false
deriving DecidableEq

/-- The closed set of valid modification kinds (`validModTypes`). -/
def validModTypes : List Str :=
  [lit "static", lit "variable", lit "terminal", lit "ambiguous", lit "crosslink",
   lit "branch", lit "gap", lit "labile", lit "unknown_position", lit "global"]

/-- Round to the nearest integer, ties to even (the rounding Go's `fmt`
applies when formatting). -/
def roundHalfEven (q : Rat) : Int :=
  let fl := q.floor
  let frac := q - (fl : Rat)
  if frac < 1 / 2 then fl
  else if frac > 1 / 2 then fl + 1
  else if fl % 2 = 0 then fl else fl + 1

/-- Go `fmt.Sprintf("%.2f", x)`.  The Go code formats a `float64`; on the
short decimal localization scores the package produces, the rational model
agrees, and no theorem depends on this rendering. -/
def formatFixed2 (q : Rat) : Str :=
  let n := roundHalfEven (q * 100)
  let m := n.natAbs
  (if n < 0 then [ '-' ] else []) ++ natDigits (m / 100) ++
    '.' :: (if m % 100 < 10 then '0' :: natDigits (m % 100) else natDigits (m % 100))

/-- The parameters of `NewModification` (ProForma 2.1 signature), in
declaration order. -/
structure NMArgs where
  value : Str
  position : Option Int := none
  regexPattern : Option Str := none
  fullName : Option Str := none
  modType : Str
  labile : Bool := false
  labilNumber : Int := 0
  mass : Rat := 0
  allFilled : Bool := false
  crosslinkID : Option Str := none
  isCrosslinkRef : Bool := false
  isBranchRef : Bool := false
  isBranch : Bool := false
  ambiguityGroup : Option Str := none
  isAmbiguityRef : Bool := false
  inRange : Bool := false
  rangeStart : Option Int := none
  rangeEnd : Option Int := none
  localizationScore : Option Rat := none
  modValue : Option GoModValue := none
  positionConstraint : List Str := []
  limitPerPosition : Option Int := none
  colocalizeKnown : Bool := false
  colocalizeUnknown : Bool := false
  isIonType : Bool := false

/-- The `valueWithCrosslink` text from which `NewModification` builds its
default modification value: the ambiguity decoration overwrites the
crosslink decoration when both apply. -/
def nmDefaultValueText (a : NMArgs) : Str :=
  match a.ambiguityGroup, a.isAmbiguityRef with
  | some g, false =>
    let scoreStr :=
      match a.localizationScore with
      | some sc => '(' :: (formatFixed2 sc ++ [')'])
      | none => []
    a.value ++ '#' :: (g ++ scoreStr)
  | _, _ =>
    match a.crosslinkID, a.isCrosslinkRef with
    | some cid, false => a.value ++ '#' :: cid
    | _, _ => a.value

/-- `value[0] == '#' && isCrosslinkRef`: the crosslink id stored by
`NewModification` is re-derived from the value (the value itself is
rebuilt unchanged). -/
def nmEffectiveCid (a : NMArgs) : Option Str :=
  if a.value.head? = some '#' ∧ a.isCrosslinkRef then some (a.value.drop 1)
  else a.crosslinkID

/-- The kind after the crosslink coercion of `NewModification`. -/
def nmCoercedType (a : NMArgs) : Str :=
  if ((nmEffectiveCid a).isSome ∨ a.isCrosslinkRef) ∧ a.modType ≠ lit "crosslink" then
    lit "crosslink"
  else a.modType

/-- `NewModification`.  `none` models a panic: either the explicit
`mod_type must be one of …` panic when the (possibly crosslink-coerced)
kind is invalid, or a panic propagated from `NewModificationValue` while
it builds the default modification value. -/
def newModification (a : NMArgs) : Option GoMod := do
  let modValue ←
    match a.modValue with
    | some mv => pure mv
    | none => newModificationValue (nmDefaultValueText a) (some a.mass)
  if nmCoercedType a ∉ validModTypes then none
  else
    some { value := a.value, position := a.position, mass := some a.mass,
           originalValue := a.value, crosslinkID := nmEffectiveCid a,
           isCrosslinkRef := a.isCrosslinkRef, isBranchRef := a.isBranchRef,
           isBranch := a.isBranch, isAmbiguityRef := a.isAmbiguityRef,
           ambiguityGroup := a.ambiguityGroup, inRange := a.inRange,
           rangeStart := a.rangeStart, rangeEnd := a.rangeEnd,
           localizationScore := a.localizationScore, modValue := modValue,
           regexPattern := a.regexPattern,
           modType := if a.inRange then lit "ambiguous" else nmCoercedType a,
           labile := if nmCoercedType a = lit "labile" then true else a.labile,
           labilNumber := a.labilNumber, fullName := a.fullName,
           allFilled := a.allFilled, positionConstraint := a.positionConstraint,
           limitPerPosition := a.limitPerPosition, colocalizeKnown := a.colocalizeKnown,
           colocalizeUnknown := a.colocalizeUnknown, isIonType := a.isIonType }

/-- `GlobalModification` (`global_modification.go`). -/
structure GoGlobalMod where
  mod : GoMod
  targetResidues : List Str := []
  globalModType : Str
deriving DecidableEq

/-- `NewGlobalModification`; `none` models the panic on a sub-kind other
than `isotope`/`fixed`, or a panic propagated from `NewModification`. -/
def newGlobalModification (value : Str) (targetResidues : List Str) (modType : Str)
    (positionConstraint : List Str) (limitPerPosition : Option Int)
    (colocalizeKnown colocalizeUnknown : Bool) : Option GoGlobalMod :=
  if modType ≠ lit "isotope" ∧ modType ≠ lit "fixed" then none
  else
    (newModification
      { value := value, modType := lit "global",
        positionConstraint := positionConstraint, limitPerPosition := limitPerPosition,
        colocalizeKnown := colocalizeKnown, colocalizeUnknown := colocalizeUnknown }).map
      (fun m => { mod := m, targetResidues := targetResidues, globalModType := modType })

/-! ## The `ProFormaParser` regular expressions (`proforma.go`) -/

/-- `massShiftPattern`, `^[+-]\d+(\.\d+)?$`. -/
def isMassShift (s : Str) : Bool :=
  match s with
  | [] => false
  | c :: rest =>
    (c = '+' || c = '-') &&
    (let d := rest.takeWhile Char.isDigit
     d ≠ [] &&
     (match rest.dropWhile Char.isDigit with
      | [] => true
      | '.' :: fr => fr ≠ [] && fr.all Char.isDigit
      | _ => false))

/-- `crosslinkPattern`, `^([^#]+)#(XL[A-Za-z0-9]+)$`; returns the id
capture.  Since neither side of the `#` may contain another `#`, the
matched separator is the unique `#`. -/
def matchCrosslinkPattern (s : Str) : Option Str :=
  match splitN2 '#' s with
  | some (a, b) =>
    if a ≠ [] ∧ ¬ containsChar b '#' ∧ hasPrefix b (lit "XL") ∧ 2 < b.length ∧
        (b.drop 2).all Char.isAlphanum then some b
    else none
  | none => none

/-- `crosslinkRefPattern`, `^#(XL[A-Za-z0-9]+)$`. -/
def matchCrosslinkRef (s : Str) : Bool :=
  match s with
  | '#' :: b => hasPrefix b (lit "XL") && 2 < b.length && (b.drop 2).all Char.isAlphanum
  | _ => false

/-- `branchPattern`, `^([^#]+)#BRANCH$`. -/
def matchBranchPattern (s : Str) : Bool :=
  match splitN2 '#' s with
  | some (a, b) => a ≠ [] && b = lit "BRANCH"
  | none => false

/-- The tail accepted after the `#` of the ambiguity patterns:
`([A-Za-z0-9]+)(?:\(([0-9.]+)\))?$`.  Returns the group capture and the
optional score capture.  The group is the maximal alphanumeric prefix —
shortening it can never help, because the next character would still be
alphanumeric where `(` or the end is required. -/
def ambTail (t : Str) : Option (Str × Option Str) :=
  let g := t.takeWhile Char.isAlphanum
  let w := t.dropWhile Char.isAlphanum
  if g = [] then none
  else
    match w with
    | [] => some (g, none)
    | '(' :: r =>
      let d := r.takeWhile (fun c => c.isDigit || c = '.')
      match r.dropWhile (fun c => c.isDigit || c = '.') with
      | [')'] => if d ≠ [] then some (g, some d) else none
      | _ => none
    | _ => none

/-- `ambiguityPattern`, `(.+?)#([A-Za-z0-9]+)(?:\(([0-9.]+)\))?$`,
unanchored and lazy: the match uses the first `#` at index ≥ 1 whose tail
is accepted, and captures the text before it. -/
def ambFindAux : Nat → Str → Str → Option (Str × Str × Option Str)
  | _, _, [] => none
  | idx, acc, c :: rest =>
    if c = '#' ∧ 1 ≤ idx then
      match ambTail rest with
      | some (g, d) => some (acc.reverse, g, d)
      | none => ambFindAux (idx + 1) (c :: acc) rest
    else ambFindAux (idx + 1) (c :: acc) rest

/-- Leftmost match of `ambiguityPattern`. -/
def ambPatternMatch (s : Str) : Option (Str × Str × Option Str) := ambFindAux 0 [] s

/-- `ambiguityRefPattern`, `#([A-Za-z0-9]+)(?:\(([0-9.]+)\))?$`,
unanchored: the first `#` with an accepted tail. -/
def ambRefFind : Str → Option (Str × Option Str)
  | [] => none
  | c :: rest =>
    if c = '#' then
      match ambTail rest with
      | some gd => some gd
      | none => ambRefFind rest
    else ambRefFind rest

/-- ASCII lower-casing (Go `strings.ToLower` on ASCII text). -/
def toLowerStr (s : Str) : Str := s.map Char.toLower

/-- The Unimod accessions naming fragment-ion types. -/
def ionTypeUnimodIDs : List Str :=
  [lit "140", lit "2132", lit "4", lit "24", lit "2133", lit "23"]

/-- `ProFormaParser.isIonTypeModification`. -/
def isIonTypeModification (modStr : Str) : Bool :=
  if hasSuffix (toLowerStr modStr) (lit "-type-ion") then true
  else if hasPrefix modStr (lit "UNIMOD:") || hasPrefix modStr (lit "U:") then
    match splitChar ':' modStr with
    | _ :: uid :: _ => ionTypeUnimodIDs.contains uid
    | _ => false
  else false

/-- The option flags accepted by `createModification`. -/
structure CMOpts where
  isTerminal : Bool := false
  isAmbiguous : Bool := false
  isLabile : Bool := false
  isUnknownPosition : Bool := false
  crosslinkId : Option Str := none
  isCrosslinkRef : Bool := false
  isBranch : Bool := false
  isBranchRef : Bool := false
  isGap : Bool := false
  inRange : Bool := false
  rangeStart : Option Int := none
  rangeEnd : Option Int := none

/-- The context-derived kind of `createModification`. -/
def cmContextType (o : CMOpts) : Str :=
  if o.isTerminal then lit "terminal"
  else if o.isAmbiguous then lit "ambiguous"
  else if o.isLabile then lit "labile"
  else if o.isUnknownPosition then lit "unknown_position"
  else if o.crosslinkId.isSome ∨ o.isCrosslinkRef then lit "crosslink"
  else if o.isBranch ∨ o.isBranchRef then lit "branch"
  else if o.isGap then lit "gap"
  else lit "static"

/-- `ProFormaParser.createModification` (2.1 revision).  `none` models a
panic propagated from `NewModificationValue` (the modification value of
the raw text is always built first). -/
def createModification (modStr : Str) (o : CMOpts) : Option GoMod := do
  let modValue ← newModificationValue modStr none
  let modType := cmContextType o
  if isMassShift modStr ∧ ¬ containsChar modStr '#' then
    let massValue := (goParseFloat modStr).getD 0
    let mvShift ← newModificationValue (lit "Mass:" ++ modStr) (some massValue)
    if o.isGap then
      newModification
        { value := modStr, modType := lit "gap", mass := massValue,
          inRange := o.inRange, rangeStart := o.rangeStart, rangeEnd := o.rangeEnd,
          modValue := some mvShift, isIonType := isIonTypeModification modStr }
    else if o.inRange then
      newModification
        { value := modStr, modType := lit "variable", mass := massValue,
          inRange := true, rangeStart := o.rangeStart, rangeEnd := o.rangeEnd,
          modValue := some mvShift, isIonType := isIonTypeModification modStr }
    else
      newModification
        { value := lit "Mass:" ++ modStr, modType := modType, labile := o.isLabile,
          mass := massValue, inRange := o.inRange, rangeStart := o.rangeStart,
          rangeEnd := o.rangeEnd, modValue := some mvShift,
          isIonType := isIonTypeModification modStr }
  else
    let defaultRet : Option GoMod :=
      newModification
        { value := modStr, modType := modType, labile := o.isLabile,
          crosslinkID := o.crosslinkId, isCrosslinkRef := o.isCrosslinkRef,
          isBranchRef := o.isBranchRef, isBranch := o.isBranch,
          inRange := o.inRange, rangeStart := o.rangeStart, rangeEnd := o.rangeEnd,
          modValue := some modValue, isIonType := isIonTypeModification modStr }
    if containsChar modStr '#' ∧ ¬o.isCrosslinkRef ∧ ¬o.isBranch ∧ ¬o.isBranchRef ∧
        o.crosslinkId = none then
      let refBranch : Option GoMod :=
        match ambRefFind modStr with
        | some (g, d) =>
          if ¬ hasPrefix g (lit "XL") then
            newModification
              { value := [], modType := lit "ambiguous", ambiguityGroup := some g,
                isAmbiguityRef := true, inRange := o.inRange, rangeStart := o.rangeStart,
                rangeEnd := o.rangeEnd, localizationScore := d.bind goParseFloat,
                modValue := some modValue, isIonType := isIonTypeModification modStr }
          else defaultRet
        | none => defaultRet
      match ambPatternMatch modStr with
      | some (m1, g, d) =>
        if ¬ hasPrefix g (lit "XL") then
          newModification
            { value := m1, modType := lit "ambiguous", ambiguityGroup := some g,
              isAmbiguityRef := false, inRange := o.inRange, rangeStart := o.rangeStart,
              rangeEnd := o.rangeEnd, localizationScore := d.bind goParseFloat,
              modValue := some modValue, isIonType := isIonTypeModification m1 }
        else refBranch
      | none => refBranch
    else defaultRet

/-! ## Call outcomes -/

/-- Outcome of a Go call: a runtime panic, a returned error, or a normal
return.  Every error return of `Parse` carries the zero values of the
other results, so nothing is lost by the sum representation (see
`goParseReturn` below for the tuple view). -/
inductive PRes (α : Type) where
  | panicked
  | failed (msg : Str)
  | ok (v : α)
deriving DecidableEq

/-- Sequencing of Go calls: panics and errors propagate. -/
def PRes.bind : PRes α → (α → PRes β) → PRes β
  | .panicked, _ => .panicked
  | .failed m, _ => .failed m
  | .ok a, f => f a

instance : Monad PRes where
  pure := PRes.ok
  bind := PRes.bind

/-- Lift the Option view of a possibly-panicking call. -/
def liftOpt : Option α → PRes α
  | none => PRes.panicked
  | some a => PRes.ok a

/-! ## The notation parser (`ProFormaParser.Parse`, 2.1 revision) -/

/-- `findBalancedParen` body: scan with a nesting count that starts at 1;
returns the index just past the balancing `)`. -/
def fbpLoop : Str → Int → Nat → Option Nat
  | s, count, i =>
    if count = 0 then some i
    else
      match s with
      | [] => none
      | c :: rest =>
        fbpLoop rest (if c = '(' then count + 1 else if c = ')' then count - 1 else count) (i + 1)

/-- `ProFormaParser.findBalancedParen` (`none` models the `-1` return). -/
def findBalancedParen (s : Str) (start : Nat) : Option Nat := fbpLoop (s.drop start) 1 start

/-- `findBalancedAngleBracket` body: a single boolean tracks being inside
square brackets (not a counter). -/
def fabLoop : Str → Bool → Nat → Option Nat
  | [], _, _ => none
  | c :: rest, inSq, i =>
    if c = '[' then fabLoop rest true (i + 1)
    else if c = ']' then fabLoop rest false (i + 1)
    else if c = '>' ∧ ¬inSq then some (i + 1)
    else fabLoop rest inSq (i + 1)

/-- `ProFormaParser.findBalancedAngleBracket`. -/
def findBalancedAngle (s : Str) (start : Nat) : Option Nat := fabLoop (s.drop start) false start

/-- Scan of a square-bracket group: called on the text after the opening
`[` with depth 1; returns the bracket content and the remainder after the
matching `]`. -/
def scanBracketAux : Str → Int → Str → Option (Str × Str)
  | [], _, _ => none
  | c :: rest, depth, acc =>
    let depth' := if c = '[' then depth + 1 else if c = ']' then depth - 1 else depth
    if depth' = 0 then some (acc.reverse, rest)
    else scanBracketAux rest depth' (c :: acc)

/-- First `/` at bracket depth 0, counting `[`/`(` up and `]`/`)` down
(`parseChargeInfo`). -/
def findSlashDepth0 : Str → Int → Nat → Option Nat
  | [], _, _ => none
  | c :: rest, lvl, i =>
    if c = '/' ∧ lvl = 0 then some i
    else
      findSlashDepth0 rest
        (if c = '[' ∨ c = '(' then lvl + 1 else if c = ']' ∨ c = ')' then lvl - 1 else lvl) (i + 1)

/-- Closing `]` search for the ionic species: called on the text after the
opening `[` with level 1; Go records the index `j` (counted from the
opening bracket) at which the level returns to 0. -/
def findCloseSquare : Str → Int → Nat → Option Nat
  | [], _, _ => none
  | c :: rest, lvl, j =>
    let lvl' := if c = '[' then lvl + 1 else if c = ']' then lvl - 1 else lvl
    if lvl' = 0 then some j else findCloseSquare rest lvl' (j + 1)

/-- Result triple of `parseChargeInfo`. -/
structure ChargeInfo where
  rest : Str
  charge : Option Int := none
  species : Option Str := none
deriving DecidableEq

/-- `ProFormaParser.parseChargeInfo` (it never returns a Go error). -/
def parseChargeInfo (s : Str) : ChargeInfo :=
  if ¬ containsChar s '/' then { rest := s }
  else
    match findSlashDepth0 s 0 0 with
    | none => { rest := s }
    | some chargePos =>
      let beforeCharge := s.take chargePos
      let afterCharge := s.drop (chargePos + 1)
      let sign : Int := if afterCharge.head? = some '-' then -1 else 1
      let a1 := if afterCharge.head? = some '-' then afterCharge.drop 1 else afterCharge
      let ds := a1.takeWhile Char.isDigit
      if ds = [] then { rest := s }
      else
        let chargeValue : Int := sign * (digitsToNat ds : Int)
        let remaining := a1.drop ds.length
        let speciesAndRest : Option Str × Str :=
          match remaining with
          | '[' :: r =>
            match findCloseSquare r 1 1 with
            | some endPos =>
              if 0 < endPos then (some (remaining.drop 1 |>.take (endPos - 1)), remaining.drop (endPos + 1))
              else (none, remaining)
            | none => (none, remaining)
          | _ => (none, remaining)
        { rest := beforeCharge ++ speciesAndRest.2, charge := some chargeValue,
          species := speciesAndRest.1 }

/-- First `-` at square-bracket depth 0, scanning left to right (the
N-terminal terminator search). -/
def findDashDepth0 : Str → Int → Nat → Option Nat
  | [], _, _ => none
  | c :: rest, lvl, i =>
    if c = '-' ∧ lvl = 0 then some i
    else
      findDashDepth0 rest (if c = '[' then lvl + 1 else if c = ']' then lvl - 1 else lvl) (i + 1)

/-- Right-to-left scan for the C-terminal `-` at depth 0 (`]` counts up,
`[` counts down); returns the index in the reversed string. -/
def findDashDepth0R : Str → Int → Nat → Option Nat
  | [], _, _ => none
  | c :: rest, lvl, i =>
    if c = '-' ∧ lvl = 0 then some i
    else
      findDashDepth0R rest (if c = ']' then lvl + 1 else if c = '[' then lvl - 1 else lvl) (i + 1)

/-- The C-terminal terminator position in the original orientation. -/
def findDashFromRight (s : Str) : Option Nat :=
  (findDashDepth0R s.reverse 0 0).map (fun ri => s.length - 1 - ri)

/-- The bracket-group collection shared by the N- and C-terminal blocks:
walks the part, collecting the content of every balanced `[...]` group; an
unbalanced trailing group is skipped silently. -/
def collectBracketMods : Nat → Str → List Str → List Str
  | 0, _, acc => acc
  | fuel + 1, part, acc =>
    match part with
    | [] => acc
    | '[' :: rest =>
      match scanBracketAux rest 1 [] with
      | some (inner, after) => collectBracketMods fuel after (acc ++ [inner])
      | none => acc
    | _ :: rest => collectBracketMods fuel rest acc

/-- Insertion-ordered association-list view of the Go
`map[string][]*Modification` keyed by the decimal position. -/
def modsGet (m : List (Int × List GoMod)) (pos : Int) : List GoMod :=
  ((m.find? (fun kv => kv.1 = pos)).map (·.2)).getD []

/-- Store a position's list (inserting the key on first use). -/
def modsSet (m : List (Int × List GoMod)) (pos : Int) (v : List GoMod) :
    List (Int × List GoMod) :=
  if (m.find? (fun kv => kv.1 = pos)).isSome then
    m.map (fun kv => if kv.1 = pos then (pos, v) else kv)
  else m ++ [(pos, v)]

/-- `getModsAtPosition` followed by an append and `setModsAtPosition`. -/
def modsAppend (m : List (Int × List GoMod)) (pos : Int) (mod : GoMod) :
    List (Int × List GoMod) :=
  modsSet m pos (modsGet m pos ++ [mod])

/-- The global-modification prefix loop of `Parse`. -/
def parseGlobalMods : Nat → Str → List GoGlobalMod → PRes (Str × List GoGlobalMod)
  | 0, s, acc => PRes.ok (s, acc)
  | fuel + 1, s, acc =>
    if hasPrefix s (lit "<") then
      match findBalancedAngle s 1 with
      | none => PRes.failed (lit "unclosed global modification angle bracket")
      | some endB =>
        let gstr := (s.take (endB - 1)).drop 1
        let s' := s.drop endB
        if containsChar gstr '@' then
          let parts := splitChar '@' gstr
          if parts.length ≠ 2 then PRes.failed (lit "invalid global modification format")
          else
            let modPart := parts.headD []
            let targets := (parts.drop 1).headD []
            let modValue0 :=
              if hasPrefix modPart (lit "[") ∧ hasSuffix modPart (lit "]") then
                (modPart.drop 1).dropLast
              else modPart
            let tagState :=
              if containsChar modValue0 '|' then
                match splitChar '|' modValue0 with
                | [] => (modValue0, ([] : List Str), (none : Option Int), false, false)
                | mp0 :: restParts =>
                  let st := restParts.foldl
                    (fun (st : List Str × Option Int × Bool × Bool) part =>
                      let pc := st.1
                      let lim := st.2.1
                      let ck := st.2.2.1
                      let cu := st.2.2.2
                      if hasPrefix part (lit "Position:") then
                        (splitChar ',' (trimPrefix part (lit "Position:")), lim, ck, cu)
                      else if hasPrefix part (lit "Limit:") then
                        match goAtoi (trimPrefix part (lit "Limit:")) with
                        | some l => (pc, some l, ck, cu)
                        | none => (pc, lim, ck, cu)
                      else if part = lit "CoMKP" ∨
                          part = lit "ColocaliseModificationsOfKnownPosition" then
                        (pc, lim, true, cu)
                      else if part = lit "CoMUP" ∨
                          part = lit "ColocaliseModificationsOfUnknownPosition" then
                        (pc, lim, ck, true)
                      else (pc, lim, ck, cu))
                    (([] : List Str), (none : Option Int), false, false)
                  (mp0, st.1, st.2.1, st.2.2.1, st.2.2.2)
              else (modValue0, ([] : List Str), (none : Option Int), false, false)
            let modValue := tagState.1
            let posC := tagState.2.1
            let limitO := tagState.2.2.1
            let coK := tagState.2.2.2.1
            let coU := tagState.2.2.2.2
            match newGlobalModification modValue (splitChar ',' targets) (lit "fixed")
                posC limitO coK coU with
            | none => PRes.panicked
            | some gm => parseGlobalMods fuel s' (acc ++ [gm])
        else
          match newGlobalModification gstr [] (lit "isotope") [] none false false with
          | none => PRes.panicked
          | some gm => parseGlobalMods fuel s' (acc ++ [gm])
    else PRes.ok (s, acc)

/-- Outcome of the unknown-position block loop. -/
inductive UnkOut where
  | err (msg : Str)
  | done (flushed : List Str) (restIdx : Nat)
deriving DecidableEq

/-- The unknown-position loop of `Parse`: collects `[mod]` blocks
(expanding `^count`), flushes the pending blocks into the result when a
`?` follows them, and otherwise discards them, leaving the remainder at
the current index. -/
def unknownLoop : Nat → Str → Nat → List Str → UnkOut
  | 0, _, i, _ => .done [] i
  | fuel + 1, rem, i, pending =>
    match rem with
    | [] => .done [] i
    | c :: _ =>
      if c ≠ '[' then
        if pending ≠ [] ∧ c = '?' then .done pending (i + 1)
        else .done [] i
      else
        match scanBracketAux (rem.drop 1) 1 [] with
        | none => .err (lit "unclosed bracket")
        | some (inner, after) =>
          let cntInfo : Nat × Str × Nat :=
            match after with
            | '^' :: a2 =>
              let ds := a2.takeWhile Char.isDigit
              if ds ≠ [] then (digitsToNat ds, a2.drop ds.length, 1 + ds.length)
              else (1, a2, 1)
            | _ => (1, after, 0)
          unknownLoop fuel cntInfo.2.1 (i + inner.length + 2 + cntInfo.2.2)
            (pending ++ List.replicate cntInfo.1 inner)

/-- The labile-modification loop of `Parse` (2.1 revision: no `Glycan:`
prefix requirement). -/
def labileLoop : Nat → Str → List (Int × List GoMod) → PRes (Str × List (Int × List GoMod))
  | 0, s, mods => PRes.ok (s, mods)
  | fuel + 1, s, mods =>
    match s with
    | '{' :: rest =>
      match indexChar '}' rest with
      | none => PRes.failed (lit "unclosed curly brace")
      | some j =>
        match createModification (rest.take j) { isLabile := true } with
        | none => PRes.panicked
        | some mod => labileLoop fuel (rest.drop (j + 1)) (modsAppend mods (-3) mod)
    | _ => PRes.ok (s, mods)

/-- The modification object built from one `[...]` group of the residue
body: the pending-gap flag, the crosslink-reference, `#BRANCH`,
crosslink-id and branch patterns pick the creation options. -/
def bracketModO (nextModIsGap : Bool) (inner : Str) : Option GoMod :=
  if nextModIsGap then createModification inner { isGap := true }
  else if matchCrosslinkRef inner then createModification inner { isCrosslinkRef := true }
  else if inner = lit "#BRANCH" then createModification inner { isBranchRef := true }
  else
    match matchCrosslinkPattern inner with
    | some cid => createModification inner { crosslinkId := some cid }
    | none =>
      if matchBranchPattern inner then createModification inner { isBranch := true }
      else createModification inner {}

/-- Parser state threaded through the residue-body loop. -/
structure BodyState where
  baseSequence : Str := []
  mods : List (Int × List GoMod) := []
  ambs : List (Str × Int) := []
  nextModIsGap : Bool := false
  rangeStack : List Nat := []
deriving DecidableEq

/-- Attach one range modification to every position of the closed range
(as the `for pos := rangeStart; pos <= rangeEnd` loop does). -/
def attachRange (mods : List (Int × List GoMod)) (mod : GoMod) (lo : Nat) (hi : Int) :
    List (Int × List GoMod) :=
  if hi < (lo : Int) then mods
  else (List.range (hi - lo + 1).toNat).foldl
    (fun m k => modsAppend m ((lo : Int) + k) mod) mods

/-- The trailing `[...]` groups after a closed range: each balanced group
becomes one range-flagged modification attached to every index in the
range; an unbalanced group silently consumes the rest of the input. -/
def rangeModsScan : Nat → Str → List (Int × List GoMod) → Nat → Int →
    PRes (Str × List (Int × List GoMod))
  | 0, rem, mods, _, _ => PRes.ok (rem, mods)
  | fuel + 1, rem, mods, rstart, rend =>
    match rem with
    | '[' :: rest =>
      match scanBracketAux rest 1 [] with
      | none => PRes.ok ([], mods)
      | some (inner, after) =>
        match createModification inner
            { inRange := true, rangeStart := some (rstart : Int), rangeEnd := some rend } with
        | none => PRes.panicked
        | some mod => rangeModsScan fuel after (attachRange mods mod rstart rend) rstart rend
    | _ => PRes.ok (rem, mods)

/-- The residue-body loop of `Parse`. -/
def bodyLoop : Nat → Str → BodyState → PRes BodyState
  | 0, _, st => PRes.ok st
  | fuel + 1, rem, st =>
    match rem with
    | [] => PRes.ok st
    | c :: rest =>
      if c = '(' ∧ rest.head? = some '?' then
        match indexChar ')' (rest.drop 1) with
        | none => PRes.failed (lit "unclosed sequence ambiguity parenthesis")
        | some cp =>
          bodyLoop fuel ((rest.drop 1).drop (cp + 1))
            { st with ambs := st.ambs ++ [((rest.drop 1).take cp, 0)] }
      else if c = '(' then
        bodyLoop fuel rest { st with rangeStack := st.baseSequence.length :: st.rangeStack }
      else if c = ')' then
        match st.rangeStack with
        | [] => PRes.failed (lit "unmatched closing parenthesis")
        | rstart :: stackRest =>
          match rangeModsScan (rest.length + 1) rest st.mods rstart
              ((st.baseSequence.length : Int) - 1) with
          | PRes.panicked => PRes.panicked
          | PRes.failed m => PRes.failed m
          | PRes.ok (rem', mods') =>
            bodyLoop fuel rem' { st with mods := mods', rangeStack := stackRest }
      else if c = '[' then
        match scanBracketAux rest 1 [] with
        | none => PRes.failed (lit "unclosed square bracket")
        | some (inner, after) =>
          match bracketModO st.nextModIsGap inner with
          | none => PRes.panicked
          | some mod =>
            let st' :=
              if 0 < st.baseSequence.length then
                { st with mods := modsAppend st.mods ((st.baseSequence.length : Int) - 1) mod }
              else st
            bodyLoop fuel after { st' with nextModIsGap := false }
      else if c = '{' then
        match indexChar '}' rest with
        | none => PRes.failed (lit "unclosed curly brace")
        | some j =>
          match createModification (rest.take j) { isAmbiguous := true } with
          | none => PRes.panicked
          | some mod =>
            let st' :=
              if 0 < st.baseSequence.length then
                { st with mods := modsAppend st.mods ((st.baseSequence.length : Int) - 1) mod }
              else st
            bodyLoop fuel (rest.drop (j + 1)) st'
      else
        let isGap := c = 'X' ∧ rest.head? = some '['
        bodyLoop fuel rest
          { st with baseSequence := st.baseSequence ++ [c],
                    nextModIsGap := if isGap then true else st.nextModIsGap }

/-- Creation and attachment at virtual position −4 of the flushed
unknown-position modification strings, one `modsAppend` per string. -/
def cumLoop : List Str → List (Int × List GoMod) → PRes (List (Int × List GoMod))
  | [], mp => PRes.ok mp
  | ms :: rest, mp => do
    let mod ← liftOpt (createModification ms { isUnknownPosition := true })
    cumLoop rest (modsAppend mp (-4) mod)

/-- Entry point of the loop above, starting from the empty map. -/
def createUnknownMods (flushed : List Str) : PRes (List (Int × List GoMod)) :=
  cumLoop flushed []

/-- The unknown-position section of `Parse`: runs only when the input
contains a `?` anywhere; `[mod]^count` blocks collected before a `?` each
expand to `count` entries at virtual position −4 (one entry when `^count`
is absent); blocks not followed by a `?` are silently discarded. -/
def unknownSection (s : Str) : PRes (Str × List (Int × List GoMod)) :=
  if containsChar s '?' then
    match unknownLoop (s.length + 1) s 0 [] with
    | .err m => PRes.failed m
    | .done flushed restIdx => do
      let mp ← createUnknownMods flushed
      pure (s.drop restIdx, mp)
  else pure (s, ([] : List (Int × List GoMod)))

/-- The result record of `ProFormaParser.Parse`. -/
structure ParseResult where
  baseSequence : Str := []
  modifications : List (Int × List GoMod) := []
  globalMods : List GoGlobalMod := []
  sequenceAmbiguities : List (Str × Int) := []
  charge : Option Int := none
deriving DecidableEq

/-- `ProFormaParser.Parse` (2.1 revision): strips named-entity prefixes,
then processes global modifications, unknown-position blocks, labile
blocks, the N-terminal block, the charge suffix, the C-terminal block and
the residue body, in that order. -/
def goParse (s0 : Str) : PRes ParseResult := do
  let s1 :=
    if hasPrefix s0 (lit "(>>>") then
      match findBalancedParen s0 4 with
      | some e => s0.drop e
      | none => s0
    else s0
  let s2 :=
    if hasPrefix s1 (lit "(>>") then
      match findBalancedParen s1 3 with
      | some e => s1.drop e
      | none => s1
    else s1
  let s3 :=
    if hasPrefix s2 (lit "(>") then
      match findBalancedParen s2 2 with
      | some e => s2.drop e
      | none => s2
    else s2
  let gm ← parseGlobalMods (s3.length + 1) s3 []
  let s := gm.1
  let globalMods := gm.2
  let um ← unknownSection s
  let lm ← labileLoop (um.1.length + 1) um.1 um.2
  let nm ←
    if hasPrefix lm.1 (lit "[") then
      match findDashDepth0 lm.1 0 0 with
      | some tpos => do
        let nPart := lm.1.take tpos
        let mp ← (collectBracketMods (nPart.length + 1) nPart []).foldlM
          (fun mp ms => do
            let mod ← liftOpt (createModification ms { isTerminal := true })
            pure (modsAppend mp (-1) mod))
          lm.2
        pure (lm.1.drop (tpos + 1), mp)
      | none => pure lm
    else pure lm
  let ci := parseChargeInfo nm.1
  let cm ←
    if containsChar ci.rest '-' then
      match findDashFromRight ci.rest with
      | some tpos => do
        let cPart := ci.rest.drop (tpos + 1)
        let mp ← (collectBracketMods (cPart.length + 1) cPart []).foldlM
          (fun mp ms => do
            let mod ← liftOpt (createModification ms { isTerminal := true })
            pure (modsAppend mp (-2) mod))
          nm.2
        pure (ci.rest.take tpos, mp)
      | none => pure (ci.rest, nm.2)
    else pure (ci.rest, nm.2)
  let st ← bodyLoop (cm.1.length + 1) cm.1 { mods := cm.2 }
  if st.rangeStack ≠ [] then PRes.failed (lit "unclosed parenthesis")
  else
    PRes.ok { baseSequence := st.baseSequence, modifications := st.mods,
              globalMods := globalMods, sequenceAmbiguities := st.ambs,
              charge := ci.charge }

/-- Result of `ParseProFormaDetailed` (the naming fields are stripped by
`Parse` itself and recorded nowhere the claims inspect). -/
structure DetailedResult where
  result : ParseResult
  species : Option Str := none
deriving DecidableEq

/-- `ParseProFormaDetailed`: the ionic species is recovered by re-running
`parseChargeInfo` on the original string when it contains a `/`. -/
def parseProFormaDetailed (s : Str) : PRes DetailedResult := do
  let r ← goParse s
  let species := if containsChar s '/' then (parseChargeInfo s).species else none
  pure { result := r, species := species }

/-! ## Sequence assembly (`sequence.go`, `amino_acid` / `resources`) -/

/-- The residue mass table `AAMass` of `resources.go` (exact decimal
values as rationals). -/
def AAMass : List (Str × Rat) :=
  [(lit "A", 71.037114), (lit "R", 156.101111), (lit "N", 114.042927),
   (lit "D", 115.026943), (lit "C", 103.009185), (lit "E", 129.042593),
   (lit "Q", 128.058578), (lit "G", 57.021464), (lit "H", 137.058912),
   (lit "I", 113.084064), (lit "L", 113.084064), (lit "K", 128.094963),
   (lit "M", 131.040485), (lit "F", 147.068414), (lit "P", 97.052764),
   (lit "S", 87.032028), (lit "T", 101.047679), (lit "W", 186.079313),
   (lit "Y", 163.06332), (lit "V", 99.068414), (lit "X", 0),
   (lit "O", 150.03794), (lit "U", 255.15829)]

/-- Table lookup for a residue symbol. -/
def aaMassLookup (v : Str) : Option Rat := (AAMass.find? (fun kv => kv.1 = v)).map (·.2)

/-- `AminoAcid` (BaseBlock fields inlined; `branch` is constantly
`false`). -/
structure GoAminoAcid where
  value : Str
  position : Option Int := none
  mass : Option Rat := none
  mods : List GoMod := []
deriving DecidableEq

/-- `NewAminoAcid`: an unknown symbol with no explicit mass is an
error (`none`). -/
def newAminoAcid (value : Str) (position : Option Int) (mass : Option Rat) :
    Option GoAminoAcid :=
  match mass with
  | some m => some { value := value, position := position, mass := some m }
  | none =>
    match aaMassLookup value with
    | some am => some { value := value, position := position, mass := some am }
    | none => none

/-- One block produced by `sequenceIterator`. -/
structure SeqBlock where
  value : Str
  isMod : Bool
deriving DecidableEq

/-- `Sequence.sequenceIterator`: accumulates characters into blocks,
flushing whenever the enclosure counter returns to zero. -/
def sequenceIterator (s : Str) : List SeqBlock :=
  let step := fun (st : Int × Str × Bool × List SeqBlock) (c : Char) =>
    let modOpen := st.1
    let block := st.2.1
    let isMod := st.2.2.1
    let out := st.2.2.2
    let isStart := c = '(' ∨ c = '[' ∨ c = '{'
    let isEnd := c = ')' ∨ c = ']' ∨ c = '}'
    let modOpen' := if isStart then modOpen + 1 else if isEnd then modOpen - 1 else modOpen
    let isMod' := if isStart then true else isMod
    let block' := block ++ [c]
    if modOpen' = 0 then (modOpen', [], false, out ++ [⟨block', isMod'⟩])
    else (modOpen', block', isMod', out)
  (s.foldl step (0, [], false, [])).2.2.2

/-- `Sequence.extractModValue`: strip one matching pair of enclosures. -/
def extractModValue (m : Str) : Str :=
  if 2 ≤ m.length then
    match m.head?, m.getLast? with
    | some a, some b =>
      if (a = '(' ∧ b = ')') ∨ (a = '[' ∧ b = ']') ∨ (a = '{' ∧ b = '}') then
        (m.drop 1).dropLast
      else m
    | _, _ => m
  else m

/-- Append modifications to the residue at an index. -/
def attachAt (seq : List GoAminoAcid) (idx : Nat) (ms : List GoMod) : List GoAminoAcid :=
  match seq.get? idx with
  | some aa => seq.set idx { aa with mods := aa.mods ++ ms }
  | none => seq

/-- The `modPosition == "right"` loop of `Sequence.parseSequence` (the
only mode the package uses).  A `NewAminoAcid` error aborts the loop and
is displayed nowhere: `NewSequence` discards `parseSequence`'s return
value, leaving the residues built so far.  `none` models a panic from the
static-modification constructor. -/
def parseSeqRight : Nat → List SeqBlock → List (Int × List GoMod) → List GoAminoAcid →
    List GoMod → Nat → Option (List GoAminoAcid × Nat)
  | 0, _, _, seq, _, pos => some (seq, pos)
  | _ + 1, [], _, seq, _, pos => some (seq, pos)
  | fuel + 1, b :: rest, smods, seq, currentMod, pos =>
    if ¬ b.isMod then
      let seq := if currentMod ≠ [] ∧ 0 < pos then attachAt seq (pos - 1) currentMod else seq
      match newAminoAcid b.value none none with
      | none => some (seq, pos)
      | some aa =>
        let aa := { aa with mods := aa.mods ++ modsGet smods (pos : Int) }
        parseSeqRight fuel rest smods (seq ++ [aa]) [] (pos + 1)
    else
      if smods.length = 0 then
        match newModification { value := extractModValue b.value, modType := lit "static" } with
        | none => none
        | some mod =>
          if 0 < pos then parseSeqRight fuel rest smods (attachAt seq (pos - 1) [mod]) currentMod pos
          else parseSeqRight fuel rest smods seq (currentMod ++ [mod]) pos
      else parseSeqRight fuel rest smods seq currentMod pos

/-- `parseSequence` with `modPosition = "right"`.  Every residue's
position field aliases the single loop counter in Go, so after the call
all residues read the counter's final value. -/
def parseSequenceRight (seqStr : Str) (smods : List (Int × List GoMod)) :
    Option (List GoAminoAcid) :=
  let blocks := sequenceIterator seqStr
  (parseSeqRight (blocks.length + 1) blocks smods [] [] 0).map
    (fun out => out.1.map (fun aa => { aa with position := some (out.2 : Int) }))

/-- `Sequence` (single chain; the `chains` / `peptidoforms` lists live in
`FPModel` below, and the `isMultiChain` / `isChimeric` flags with them). -/
structure GoSequence where
  seq : List GoAminoAcid := []
  mods : List (Int × List GoMod) := []
  globalMods : List GoGlobalMod := []
  sequenceAmbiguities : List (Str × Int) := []
  seqLength : Nat := 0
  charge : Option Int := none
  ionicSpecies : Option Str := none
deriving DecidableEq

/-- `NewSequence` with `parse = true`, `modPosition = "right"`
(`DeepCopyModifications` is the identity on values). -/
def newSequenceParsed (seqStr : Str) (mods : List (Int × List GoMod))
    (globalMods : List GoGlobalMod) (ambs : List (Str × Int))
    (charge : Option Int) (species : Option Str) : Option GoSequence :=
  (parseSequenceRight seqStr mods).map (fun sq =>
    { seq := sq, mods := mods, globalMods := globalMods, sequenceAmbiguities := ambs,
      seqLength := sq.length, charge := charge, ionicSpecies := species })

/-- `SplitChimericProforma` (`utility.go`): split on `+` at bracket depth
0, dropping empty parts. -/
def splitChimericAux : Str → Int → Str → List Str → List Str
  | [], _, cur, parts => if cur ≠ [] then parts ++ [cur.reverse] else parts
  | c :: rest, lvl, cur, parts =>
    if c = '[' ∨ c = '{' ∨ c = '(' then splitChimericAux rest (lvl + 1) (c :: cur) parts
    else if c = ']' ∨ c = '}' ∨ c = ')' then
      splitChimericAux rest (if 0 < lvl then lvl - 1 else lvl) (c :: cur) parts
    else if c = '+' ∧ lvl = 0 then
      splitChimericAux rest 0 [] (if cur ≠ [] then parts ++ [cur.reverse] else parts)
    else splitChimericAux rest lvl (c :: cur) parts

/-- `SplitChimericProforma`. -/
def splitChimericProforma (s : Str) : List Str := splitChimericAux s 0 [] []

/-- The model built by `FromProforma`: the main sequence plus the
additional chains / peptidoforms.  In Go the main sequence also appears as
`chains[0]` / `peptidoforms[0]` (a self reference); the serializer only
reads the per-chain fields, so the model stores the others and prepends
the main sequence where Go iterates the full list. -/
structure FPModel where
  core : GoSequence
  isMultiChain : Bool := false
  isChimeric : Bool := false
  otherChains : List GoSequence := []
  otherPeps : List GoSequence := []
deriving DecidableEq

/-- The single-sequence path of `FromProforma` (no `//`, at most one
chimeric part). -/
def fromProformaSingle (s : Str) : PRes GoSequence := do
  let d ← parseProFormaDetailed s
  let r := d.result
  match newSequenceParsed r.baseSequence [] r.globalMods r.sequenceAmbiguities
      r.charge d.species with
  | none => PRes.panicked
  | some sq0 =>
    let sq := r.modifications.foldl
      (fun sq kv =>
        kv.2.foldl
          (fun sq mod =>
            if kv.1 = -1 ∨ kv.1 = -2 ∨ kv.1 = -3 ∨ kv.1 = -4 then
              { sq with mods := modsAppend sq.mods kv.1 mod }
            else if 0 ≤ kv.1 ∧ kv.1 < (sq.seq.length : Int) then
              { sq with seq := attachAt sq.seq kv.1.toNat [mod] }
            else sq)
          sq)
      sq0
    pure sq

/-- `FromProforma`: the `//`-chain split is a plain `strings.Split`
(ignoring brackets); the chimeric `+` split is bracket-aware.  Fuelled on
the recursion depth. -/
def fromProforma : Nat → Str → PRes FPModel
  | 0, _ => PRes.panicked
  | fuel + 1, s =>
    if containsSub s (lit "//") then
      match splitSub (lit "//") s with
      | [] => PRes.panicked
      | c0 :: rest => do
        let mainM ← fromProforma fuel c0
        let others ← rest.foldlM
          (fun (acc : List GoSequence) ci => do
            let m ← fromProforma fuel ci
            pure (acc ++ [m.core]))
          []
        pure { mainM with isMultiChain := true, otherChains := others }
    else
      let peptidoforms := splitChimericProforma s
      if 1 < peptidoforms.length then
        match peptidoforms with
        | [] => PRes.panicked
        | p0 :: rest => do
          let mainM ← fromProforma fuel p0
          let others ← rest.foldlM
            (fun (acc : List GoSequence) pi => do
              let m ← fromProforma fuel pi
              pure (acc ++ [m.core]))
            []
          pure { mainM with isChimeric := true, otherPeps := others }
      else do
        let sq ← fromProformaSingle s
        pure { core := sq, isChimeric := sq.charge.isSome }

/-- `FromProforma` at the standard fuel. -/
def fromProformaTop (s : Str) : PRes FPModel := fromProforma (s.length + 1) s

/-! ## The serializer (`ToProforma`) -/

/-- Go `%g` on a modification mass.  The package's masses are parsed
decimal literals, rendered here as exact decimals (up to 12 fractional
digits); Go's float64 shortest-representation and exponent forms are not
modelled, and no theorem depends on this rendering. -/
def fmtMassG (q : Rat) : Str :=
  let a : Rat := |q|
  let num := (a * (10 : Rat) ^ (12 : Nat)).floor.toNat
  let ip := num / 10 ^ (12 : Nat)
  let fp := num % 10 ^ (12 : Nat)
  let fracDigits :=
    (natDigits (fp + 10 ^ (12 : Nat))).drop 1
  let fracTrimmed := (fracDigits.reverse.dropWhile (· = '0')).reverse
  (if q < 0 then [ '-' ] else []) ++ natDigits ip ++
    (if fracTrimmed = [] then [] else '.' :: fracTrimmed)

/-- `Modification.HasAmbiguity`. -/
def modHasAmbiguity (m : GoMod) : Bool :=
  m.modValue.pipeValues.any (fun pv => pv.valueType = PVType.ambiguity)

/-- `Modification.ToProforma` (2.1 revision): renders each pipe value,
deduplicates exact rendered segments (first wins), appends reference
suffixes and the formula charge, then the placement-control tags, and
joins with `|`.  The `modValue == nil` branch of the method is
unreachable: the constructor always installs a value. -/
def modToProforma (m : GoMod) : Str :=
  let step := fun (st : List Str × List Str) (pv : GoPipeValue) =>
    let parts := st.1
    let seen := st.2
    let rendered : Str × List Str :=
      match pv.source with
      | some src =>
        match pv.mass with
        | some mass =>
          if 0 < mass then
            (src ++ ':' :: '+' :: fmtMassG mass, seen ++ ['+' :: fmtMassG mass])
          else if mass < 0 then
            (src ++ ':' :: fmtMassG mass, seen ++ [fmtMassG mass])
          else (src ++ [':'], seen)
        | none => (src ++ ':' :: pv.value, seen)
      | none =>
        match pv.mass with
        | some mass =>
          if 0 < mass then ('+' :: fmtMassG mass, seen)
          else if mass < 0 then (fmtMassG mass, seen)
          else ([], seen)
        | none =>
          if pv.valueType = PVType.synonym then (pv.value, seen)
          else if ¬ containsChar pv.value '#' then (pv.value, seen)
          else ([], seen)
    let modPart := rendered.1
    let seen := rendered.2
    let modPart :=
      match pv.valueType, pv.crosslinkID with
      | PVType.crosslink, some cid => modPart ++ '#' :: cid
      | _, _ =>
        if pv.valueType = PVType.branch ∧ pv.isBranch then modPart ++ lit "#BRANCH"
        else
          match pv.valueType, pv.ambiguityGroup with
          | PVType.ambiguity, some g =>
            let scoreStr :=
              match pv.localizationScore with
              | some sc => '(' :: (formatFixed2 sc ++ [')'])
              | none => []
            modPart ++ '#' :: (g ++ scoreStr)
          | _, _ => modPart
    let modPart :=
      match pv.charge with
      | some c => modPart ++ ':' :: c
      | none => modPart
    if seen.contains modPart ∨ modPart = [] then (parts, seen)
    else (parts ++ [modPart], seen ++ [modPart])
  let looped := m.modValue.pipeValues.foldl step ([], [])
  let parts := looped.1
  let parts :=
    if m.positionConstraint ≠ [] then
      parts ++ [lit "Position:" ++ List.intercalate (lit ",") m.positionConstraint]
    else parts
  let parts :=
    match m.limitPerPosition with
    | some l => parts ++ [lit "Limit:" ++ intDigits l]
    | none => parts
  let parts := if m.colocalizeKnown then parts ++ [lit "CoMKP"] else parts
  let parts := if m.colocalizeUnknown then parts ++ [lit "CoMUP"] else parts
  List.intercalate (lit "|") parts

/-- `GlobalModification.ToProforma`. -/
def globalModToProforma (gm : GoGlobalMod) : Str :=
  if gm.globalModType = lit "isotope" then '<' :: (modToProforma gm.mod ++ ['>'])
  else
    let mval := modToProforma gm.mod
    let modStr :=
      if hasPrefix mval (lit "+") ∨ hasPrefix mval (lit "-") then mval
      else '[' :: (mval ++ [']'])
    '<' :: (modStr ++ '@' :: (List.intercalate (lit ",") gm.targetResidues ++ ['>']))

/-- The unknown-position (-4) section of `chainToProforma`: group the
modifications by identical rendered text (first-occurrence order standing
in for Go's unspecified map order), emit `^count` only for groups with
more than one member, and suffix every group with `?`. -/
def serializeUnknownMods (mods : List GoMod) : Str :=
  let rendered := mods.map modToProforma
  rendered.dedup.foldl
    (fun acc t =>
      let n := rendered.count t
      acc ++ '[' :: (t ++ [']']) ++ (if 1 < n then '^' :: natDigits n else []) ++ ['?'])
    []

/-- `Sequence.chainToProforma`.  The global modifications rendered are the
*receiver's* (the main sequence's), not the chain's — as in the Go
method. -/
def chainToProforma (globals : List GoGlobalMod) (chain : GoSequence) : Str :=
  let r0 := globals.foldl (fun acc gm => acc ++ globalModToProforma gm) []
  let r1 := r0 ++ serializeUnknownMods (modsGet chain.mods (-4))
  let r2 := r1 ++ (modsGet chain.mods (-3)).foldl
    (fun acc mod =>
      if mod.modType = lit "labile" then acc ++ '{' :: (modToProforma mod ++ ['}']) else acc)
    []
  let nStr := (modsGet chain.mods (-1)).foldl
    (fun acc mod => acc ++ '[' :: (modToProforma mod ++ [']'])) []
  let r3 := r2 ++ (if nStr ≠ [] then nStr ++ ['-'] else [])
  let r4 := r3 ++ chain.seq.foldl
    (fun acc aa =>
      acc ++ aa.value ++ aa.mods.foldl
        (fun acc2 mod =>
          let ms := modToProforma mod
          if mod.modType = lit "ambiguous" ∧ ¬ modHasAmbiguity mod then
            acc2 ++ '{' :: (ms ++ ['}'])
          else acc2 ++ '[' :: (ms ++ [']']))
        [])
    []
  let cStr := (modsGet chain.mods (-2)).foldl
    (fun acc mod => acc ++ '[' :: (modToProforma mod ++ [']'])) []
  let r5 := r4 ++ (if cStr ≠ [] then '-' :: cStr else [])
  match chain.charge with
  | some z =>
    r5 ++ '/' :: intDigits z ++
      (match chain.ionicSpecies with
       | some sp => '[' :: (sp ++ [']'])
       | none => [])
  | none => r5

/-- `Sequence.ToProforma`: multi-chain sequences join their chains with
`//`, chimeric sequences join their peptidoforms with `+` (in Go the main
sequence heads both lists), and a plain sequence serializes its own
chain. -/
def toProforma (m : FPModel) : Str :=
  if m.isMultiChain then
    List.intercalate (lit "//") ((m.core :: m.otherChains).map (chainToProforma m.core.globalMods))
  else if m.isChimeric then
    List.intercalate (lit "+") ((m.core :: m.otherPeps).map (chainToProforma m.core.globalMods))
  else chainToProforma m.core.globalMods m.core

/-- `Sequence.ToStrippedString`. -/
def toStrippedString (sq : GoSequence) : Str :=
  sq.seq.foldl (fun acc aa => acc ++ aa.value) []

end Sequal



namespace Sequal

/-! ## Result accessors used by the claim theorems -/

/-- The model of a successful `FromProforma` call. -/
def fpGet : PRes FPModel → Option FPModel
  | PRes.ok m => some m
  | _ => none

/-- Whether `FromProforma` succeeded. -/
def fpIsOk (r : PRes FPModel) : Bool := (fpGet r).isSome

/-- Whether a call returned a Go error. -/
def presIsFailed {α : Type} : PRes α → Bool
  | PRes.failed _ => true
  | _ => false

/-- `ToProforma` of a successful parse (empty otherwise). -/
def fpSerialized (r : PRes FPModel) : Str := ((fpGet r).map toProforma).getD []

/-- `ToStrippedString` of a successful parse. -/
def fpStripped (r : PRes FPModel) : Str :=
  ((fpGet r).map (fun m => toStrippedString m.core)).getD []

/-- `GetCharge` of a successful parse. -/
def fpCharge (r : PRes FPModel) : Option Int := (fpGet r).bind (fun m => m.core.charge)

/-- `GetIonicSpecies` of a successful parse. -/
def fpSpecies (r : PRes FPModel) : Option Str := (fpGet r).bind (fun m => m.core.ionicSpecies)

/-- The virtual-position modification list of a successful parse. -/
def fpModsAt (p : Int) (r : PRes FPModel) : List GoMod :=
  ((fpGet r).map (fun m => modsGet m.core.mods p)).getD []

/-- The residue symbols of a successful parse. -/
def fpResidues (r : PRes FPModel) : List Str :=
  ((fpGet r).map (fun m => m.core.seq.map GoAminoAcid.value)).getD []

/-- Whether `Parse` succeeded. -/
def parseOk : PRes ParseResult → Bool
  | PRes.ok _ => true
  | _ => false

/-- The base sequence of a successful `Parse`. -/
def parseBase : PRes ParseResult → Str
  | PRes.ok r => r.baseSequence
  | _ => []

/-- The modifications map of a successful `Parse`. -/
def parseModsAssoc : PRes ParseResult → List (Int × List GoMod)
  | PRes.ok r => r.modifications
  | _ => []

example : fpCharge (fromProformaTop (lit "PEPTIDE/2[+Na+]")) = some 2 := by rfl
example : fpSpecies (fromProformaTop (lit "PEPTIDE/2[+Na+]")) = some (lit "+Na+") := by decide
example : fpSerialized (fromProformaTop (lit "[Phospho][Acetyl]?PEP")) = lit "[Phospho]?[Acetyl]?PEP" := by decide

end Sequal

namespace Sequal

/-! ## Basic lemmas about the string model -/

lemma containsChar_eq_false_iff {s : Str} {c : Char} : containsChar s c = false ↔ c ∉ s := by
  simp [containsChar]

lemma containsChar_append (a b : Str) (c : Char) :
    containsChar (a ++ b) c = (containsChar a c || containsChar b c) := by
  simp only [containsChar]
  by_cases h1 : c ∈ a <;> by_cases h2 : c ∈ b <;> simp [h1, h2, List.mem_append]

/-! ## Claim C3: the charge suffix -/

lemma parseChargeInfo_no_slash (s : Str) (h : findSlashDepth0 s 0 0 = none) :
    parseChargeInfo s = { rest := s, charge := none, species := none } := by
  unfold parseChargeInfo
  split
  · rfl
  · rw [h]

/-- C3: parsing `PEPTIDE/2[+Na+]` succeeds with charge 2, ionic species
`+Na+` and stripped residues `PEPTIDE`; and in general the charge suffix
is recognized only at a `/` found at bracket depth 0 — when the depth-0
scan finds no slash, `parseChargeInfo` returns the text unchanged with no
charge and no species. -/
theorem charge_suffix_parsing :
    fpIsOk (fromProformaTop (lit "PEPTIDE/2[+Na+]")) = true ∧
    fpCharge (fromProformaTop (lit "PEPTIDE/2[+Na+]")) = some 2 ∧
    fpSpecies (fromProformaTop (lit "PEPTIDE/2[+Na+]")) = some (lit "+Na+") ∧
    fpStripped (fromProformaTop (lit "PEPTIDE/2[+Na+]")) = lit "PEPTIDE" ∧
    (∀ s : Str, findSlashDepth0 s 0 0 = none →
      parseChargeInfo s = { rest := s, charge := none, species := none }) :=
  ⟨by decide, by decide, by decide, by decide, parseChargeInfo_no_slash⟩

/-- Witness for the hypothesis of `charge_suffix_parsing`: a slash inside
a bracket is not found by the depth-0 scan, so the charge parser leaves
the text alone. -/
theorem charge_suffix_parsing_witness :
    parseChargeInfo (lit "PEP[a/b]TIDE") =
      { rest := lit "PEP[a/b]TIDE", charge := none, species := none } :=
  charge_suffix_parsing.2.2.2.2 (lit "PEP[a/b]TIDE") (by decide)

/-! ## Claims C1 and C2: the round trip through the unknown-position
serializer -/

/-- C1 (code bug): `"[Phospho][Acetyl]?PEP"` is accepted, and its model
carries both modifications at virtual position −4; the serializer renders
it as `"[Phospho]?[Acetyl]?PEP"` (one `?` per group), which its own
parser reads back with only `Phospho` at −4 and with a different (here
empty) residue list — the re-parsed model differs from the original in
both the −4 virtual-position mapping and the residues. -/
theorem roundtrip_model_equality_fails :
    fpIsOk (fromProformaTop (lit "[Phospho][Acetyl]?PEP")) = true ∧
    fpSerialized (fromProformaTop (lit "[Phospho][Acetyl]?PEP")) =
      lit "[Phospho]?[Acetyl]?PEP" ∧
    fpIsOk (fromProformaTop (fpSerialized (fromProformaTop (lit "[Phospho][Acetyl]?PEP")))) =
      true ∧
    (fpModsAt (-4) (fromProformaTop (lit "[Phospho][Acetyl]?PEP"))).length = 2 ∧
    (fpModsAt (-4)
      (fromProformaTop (fpSerialized (fromProformaTop (lit "[Phospho][Acetyl]?PEP"))))).length
      = 1 ∧
    fpModsAt (-4)
        (fromProformaTop (fpSerialized (fromProformaTop (lit "[Phospho][Acetyl]?PEP")))) ≠
      fpModsAt (-4) (fromProformaTop (lit "[Phospho][Acetyl]?PEP")) ∧
    fpResidues (fromProformaTop (fpSerialized (fromProformaTop (lit "[Phospho][Acetyl]?PEP")))) ≠
      fpResidues (fromProformaTop (lit "[Phospho][Acetyl]?PEP")) :=
  ⟨by decide, by decide, by decide, by decide, by decide, by decide, by decide⟩

/-- C2 (code bug): on the accepted input `"[Phospho][Acetyl]?PEP"` one
serialize–parse round trip is not a fixed point of the text: the first
serialization is `"[Phospho]?[Acetyl]?PEP"` but serializing its re-parse
yields `"[Phospho]?"`. -/
theorem serialize_parse_not_idempotent :
    fpSerialized (fromProformaTop (lit "[Phospho][Acetyl]?PEP")) =
      lit "[Phospho]?[Acetyl]?PEP" ∧
    fpSerialized
        (fromProformaTop (fpSerialized (fromProformaTop (lit "[Phospho][Acetyl]?PEP")))) =
      lit "[Phospho]?" ∧
    fpSerialized
        (fromProformaTop (fpSerialized (fromProformaTop (lit "[Phospho][Acetyl]?PEP")))) ≠
      fpSerialized (fromProformaTop (lit "[Phospho][Acetyl]?PEP")) :=
  ⟨by decide, by decide, by decide⟩

/-! ## Claim C5: chain and chimeric splitting -/

lemma splitChimericAux_noPlus (s : Str) (h : containsChar s '+' = false) :
    ∀ lvl cur parts, splitChimericAux s lvl cur parts =
      if cur.reverse ++ s = [] then parts else parts ++ [cur.reverse ++ s] := by
  induction s with
  | nil =>
    intro lvl cur parts
    simp only [splitChimericAux, List.append_nil]
    by_cases hc : cur = []
    · subst hc; simp
    · simp [hc, List.reverse_eq_nil_iff, hc]
  | cons c cs ih =>
    intro lvl cur parts
    have hcs : containsChar cs '+' = false := by
      rw [containsChar_eq_false_iff] at h ⊢
      exact fun hm => h (List.mem_cons_of_mem _ hm)
    have hcplus : c ≠ '+' := by
      rw [containsChar_eq_false_iff] at h
      exact fun he => h (he ▸ List.mem_cons_self _ _)
    have step : ∀ lvl', splitChimericAux cs lvl' (c :: cur) parts =
        if cur.reverse ++ c :: cs = [] then parts else parts ++ [cur.reverse ++ c :: cs] := by
      intro lvl'
      rw [ih hcs]
      simp
    simp only [splitChimericAux]
    split
    · exact step _
    · split
      · exact step _
      · split
        · exact absurd (by assumption : c = '+' ∧ lvl = 0).1 hcplus
        · exact step _

/-- C5 (corrected): the chimeric `+` split is bracket-aware — a string
with no depth-0 `+` (in particular no `+` at all) is never split, and a
`+` inside a bracketed payload does not split — but the `//` chain split
of `FromProforma` is a plain textual split that ignores brackets: on
`"PEP[a//b]TIDE"` the piecewise parser alone accepts the text (base
sequence `PEPTIDE`), while the chain driver splits inside the bracket and
the whole parse fails. -/
theorem chimeric_split_bracket_aware_chain_split_textual :
    (∀ s : Str, containsChar s '+' = false →
      splitChimericProforma s = if s = [] then [] else [s]) ∧
    splitChimericProforma (lit "PEP[x+y]TIDE") = [lit "PEP[x+y]TIDE"] ∧
    splitChimericProforma (lit "A+PEP") = [lit "A", lit "PEP"] ∧
    parseOk (goParse (lit "PEP[a//b]TIDE")) = true ∧
    parseBase (goParse (lit "PEP[a//b]TIDE")) = lit "PEPTIDE" ∧
    presIsFailed (fromProformaTop (lit "PEP[a//b]TIDE")) = true := by
  refine ⟨?_, by decide, by decide, by decide, by decide, by decide⟩
  intro s h
  unfold splitChimericProforma
  rw [splitChimericAux_noPlus s h]
  simp

/-- Witness for the hypothesis of
`chimeric_split_bracket_aware_chain_split_textual`: a plus-free string is
returned whole. -/
theorem chimeric_split_witness :
    splitChimericProforma (lit "PEPTIDE") =
      if lit "PEPTIDE" = [] then [] else [lit "PEPTIDE"] :=
  chimeric_split_bracket_aware_chain_split_textual.1 (lit "PEPTIDE") (by decide)

/-- C5 counterexample: the claim says a `//` inside a bracketed
modification payload never causes a split; but `FromProforma` splits
`"PEP[a//b]TIDE"` at the `//` inside the bracket — the resulting pieces
fail to parse, although the chain parser itself accepts the unsplit
string. -/
theorem chain_split_inside_bracket_counterexample :
    presIsFailed (fromProformaTop (lit "PEP[a//b]TIDE")) = true ∧
    fpIsOk (fromProformaTop (lit "PEP[a//b]TIDE")) = false ∧
    parseOk (goParse (lit "PEP[a//b]TIDE")) = true ∧
    parseBase (goParse (lit "PEP[a//b]TIDE")) = lit "PEPTIDE" :=
  ⟨by decide, by decide, by decide, by decide⟩

end Sequal


namespace Sequal

/-! ## Claims C7 and C10: the constructors -/

/-- The stored crosslink id is non-nil exactly when the value starts with
`#` on a crosslink reference, or an explicit id was supplied. -/
theorem nmEffectiveCid_isSome_iff (a : NMArgs) :
    (nmEffectiveCid a).isSome = true ↔
      ((a.value.head? = some '#' ∧ a.isCrosslinkRef = true) ∨
        a.crosslinkID.isSome = true) := by
  unfold nmEffectiveCid
  by_cases h : a.value.head? = some '#' ∧ a.isCrosslinkRef = true
  · simp [h]
  · simp [h]

/-- The coerced kind is in the closed set exactly when the requested kind
is, or a crosslink id / crosslink-reference flag forces the coercion. -/
theorem nmCoercedType_mem_iff (a : NMArgs) :
    (nmCoercedType a ∈ validModTypes) ↔
      (a.modType ∈ validModTypes ∨ a.crosslinkID.isSome = true ∨
        a.isCrosslinkRef = true) := by
  unfold nmCoercedType
  by_cases h4 : a.modType = lit "crosslink"
  · constructor
    · intro _
      exact Or.inl (by rw [h4]; decide)
    · intro _
      split
      · decide
      · rw [h4]; decide
  · by_cases h5 : (nmEffectiveCid a).isSome = true ∨ a.isCrosslinkRef = true
    · have hXL : a.crosslinkID.isSome = true ∨ a.isCrosslinkRef = true := by
        rcases h5 with h5 | h5
        · rcases (nmEffectiveCid_isSome_iff a).mp h5 with ⟨_, hr⟩ | hc
          · exact Or.inr hr
          · exact Or.inl hc
        · exact Or.inr h5
      rw [if_pos ⟨h5, h4⟩]
      constructor
      · intro _; exact Or.inr hXL
      · intro _; decide
    · have h6 : ¬(((nmEffectiveCid a).isSome = true ∨ a.isCrosslinkRef = true) ∧
          a.modType ≠ lit "crosslink") := fun hc => h5 hc.1
      rw [if_neg h6]
      constructor
      · intro hm; exact Or.inl hm
      · intro hm
        rcases hm with hm | hm | hm
        · exact hm
        · exact absurd (Or.inl ((nmEffectiveCid_isSome_iff a).mpr (Or.inr hm))) h5
        · exact absurd (Or.inr hm) h5

/-- A crosslink id or a crosslink-reference flag forces the coerced kind. -/
theorem nmCoercedType_of_crosslink (a : NMArgs)
    (h : a.crosslinkID.isSome = true ∨ a.isCrosslinkRef = true) :
    nmCoercedType a = lit "crosslink" := by
  unfold nmCoercedType
  by_cases h4 : a.modType = lit "crosslink"
  · split
    · rfl
    · exact h4
  · have h5 : (nmEffectiveCid a).isSome = true ∨ a.isCrosslinkRef = true := by
      rcases h with h | h
      · exact Or.inl ((nmEffectiveCid_isSome_iff a).mpr (Or.inr h))
      · exact Or.inr h
    rw [if_pos ⟨h5, h4⟩]

/-- `NewModification` returns normally exactly when the coerced kind is in
the closed set and the modification value (supplied, or built from the
default decorated text) does not panic. -/
theorem newModification_isSome_iff (a : NMArgs) :
    (newModification a).isSome = true ↔
      ((a.modType ∈ validModTypes ∨ a.crosslinkID.isSome = true ∨
          a.isCrosslinkRef = true) ∧
        (a.modValue.isSome = true ∨
          (newModificationValue (nmDefaultValueText a) (some a.mass)).isSome = true)) := by
  rw [← nmCoercedType_mem_iff]
  unfold newModification
  cases hmv : a.modValue with
  | some mv =>
    by_cases hc : nmCoercedType a ∈ validModTypes
    · simp [hc]
    · simp [hc]
  | none =>
    cases hn : newModificationValue (nmDefaultValueText a) (some a.mass) with
    | some mv =>
      by_cases hc : nmCoercedType a ∈ validModTypes
      · simp [hc]
      · simp [hc]
    | none =>
      simp

/-- The kind stored by `NewModification`: the range override runs after
(and therefore on top of) the crosslink coercion. -/
theorem newModification_modType (a : NMArgs) (m : GoMod)
    (h : newModification a = some m) :
    m.modType = if a.inRange = true then lit "ambiguous" else nmCoercedType a := by
  unfold newModification at h
  cases hmv : a.modValue with
  | some mv =>
    rw [hmv] at h
    by_cases hc : nmCoercedType a ∈ validModTypes
    · simp [hc] at h
      rw [← h]
    · simp [hc] at h
  | none =>
    rw [hmv] at h
    cases hn : newModificationValue (nmDefaultValueText a) (some a.mass) with
    | some mv =>
      rw [hn] at h
      by_cases hc : nmCoercedType a ∈ validModTypes
      · simp [hc] at h
        rw [← h]
      · simp [hc] at h
    | none =>
      rw [hn] at h
      simp at h

/-- `NewGlobalModification` returns normally exactly when the sub-kind is
`isotope` or `fixed` and the underlying `NewModification` call (kind
`global`) returns normally. -/
theorem newGlobalModification_isSome_iff (value : Str) (tr : List Str) (mt : Str)
    (pc : List Str) (lpp : Option Int) (ck cu : Bool) :
    (newGlobalModification value tr mt pc lpp ck cu).isSome = true ↔
      ((mt = lit "isotope" ∨ mt = lit "fixed") ∧
        (newModification
          { value := value, modType := lit "global",
            positionConstraint := pc, limitPerPosition := lpp,
            colocalizeKnown := ck, colocalizeUnknown := cu }).isSome = true) := by
  unfold newGlobalModification
  by_cases h : mt ≠ lit "isotope" ∧ mt ≠ lit "fixed"
  · rw [if_pos h]
    simp only [Option.isSome_none, Bool.false_eq_true, false_iff]
    intro hcon
    rcases hcon.1 with h1 | h1
    · exact h.1 h1
    · exact h.2 h1
  · rw [if_neg h]
    rw [not_and_or, not_not, not_not] at h
    simp [Option.isSome_map, h]

/-- C7: every constructed modification obeys the kind overrides, but the
range override wins over the crosslink coercion — with `inRange` set the
kind is `ambiguous` even when a crosslink id or reference is present, so
the original claim holds only for modifications not in a range. -/
theorem mod_kind_coercion (a : NMArgs) (m : GoMod)
    (h : newModification a = some m) :
    (a.inRange = true → m.modType = lit "ambiguous") ∧
    (a.inRange = false →
      (a.crosslinkID.isSome = true ∨ a.isCrosslinkRef = true) →
      m.modType = lit "crosslink") := by
  have hm := newModification_modType a m h
  constructor
  · intro hr
    rw [hm, if_pos hr]
  · intro hr hx
    rw [hm, if_neg (by simp [hr])]
    exact nmCoercedType_of_crosslink a hx

/-- Witness for `mod_kind_coercion`: a concrete construction with a
crosslink id and no range gets kind `crosslink`. -/
theorem mod_kind_coercion_witness :
    ((newModification
        ({ value := lit "Phospho", modType := lit "static",
           crosslinkID := some (lit "XL1") } : NMArgs)).get (by decide)).modType =
      lit "crosslink" :=
  (mod_kind_coercion _ _ (Option.some_get (by decide)).symm).2 rfl (Or.inl rfl)

/-- C7 counterexample: with `inRange` set, a modification constructed with
a non-nil crosslink id keeps the id but has kind `ambiguous`, not
`crosslink` — the claim says a non-nil crosslink id implies kind
`crosslink` regardless of the rest of the request. -/
theorem crosslink_in_range_counterexample :
    ((newModification
        ({ value := lit "Phospho", modType := lit "static",
           crosslinkID := some (lit "XL1"), inRange := true } : NMArgs)).map
      GoMod.modType) = some (lit "ambiguous") ∧
    ((newModification
        ({ value := lit "Phospho", modType := lit "static",
           crosslinkID := some (lit "XL1"), inRange := true } : NMArgs)).map
      GoMod.crosslinkID) = some (some (lit "XL1")) ∧
    lit "ambiguous" ≠ lit "crosslink" :=
  ⟨by decide, by decide, by decide⟩

/-- C10: a panic-free return of either constructor is characterised
exactly — `NewGlobalModification` needs sub-kind `isotope`/`fixed` and a
panic-free inner `NewModification`; `NewModification` needs the
crosslink-coerced kind in the closed set and a panic-free modification
value, so a kind outside the set escapes the panic when a crosslink id or
reference is supplied, and a kind inside the set can still panic through
the default modification value. -/
theorem constructor_panic_conditions (a : NMArgs) (value : Str) (tr : List Str)
    (mt : Str) (pc : List Str) (lpp : Option Int) (ck cu : Bool) :
    ((newModification a).isSome = true ↔
      ((a.modType ∈ validModTypes ∨ a.crosslinkID.isSome = true ∨
          a.isCrosslinkRef = true) ∧
        (a.modValue.isSome = true ∨
          (newModificationValue (nmDefaultValueText a) (some a.mass)).isSome = true))) ∧
    ((newGlobalModification value tr mt pc lpp ck cu).isSome = true ↔
      ((mt = lit "isotope" ∨ mt = lit "fixed") ∧
        (newModification
          { value := value, modType := lit "global",
            positionConstraint := pc, limitPerPosition := lpp,
            colocalizeKnown := ck, colocalizeUnknown := cu }).isSome = true)) :=
  ⟨newModification_isSome_iff a,
   newGlobalModification_isSome_iff value tr mt pc lpp ck cu⟩

/-- C10 counterexample: the kind `bogus` is outside the closed set, yet
`NewModification` returns normally for it when a crosslink id is supplied
(the coercion runs before the validity check); conversely the in-set kind
`static` panics on value `A|U:S#g` (nil source dereference while building
the default modification value), and sub-kind `isotope` of
`NewGlobalModification` panics on the same value. -/
theorem invalid_kind_no_panic_counterexample :
    (newModification
      ({ value := lit "Phospho", modType := lit "bogus",
         crosslinkID := some (lit "XL1") } : NMArgs)).isSome = true ∧
    lit "bogus" ∉ validModTypes ∧
    newModification ({ value := lit "A|U:S#g", modType := lit "static" } : NMArgs) = none ∧
    lit "static" ∈ validModTypes ∧
    newGlobalModification (lit "A|U:S#g") [] (lit "isotope") [] none false false = none :=
  ⟨by decide, by decide, by decide, by decide, by decide⟩

end Sequal


namespace Sequal

/-! ## Claim C9: leading bracket/brace modifications -/

/-- One `bodyLoop` step on a `[...]` group with no residue consumed yet:
unless the step errors or panics, the loop continues past the group with
the state unchanged apart from clearing the pending-gap flag — the
modification object is dropped. -/
theorem bodyLoop_leading_bracket_discard (fuel : Nat) (rest : Str) (st : BodyState)
    (hbase : st.baseSequence = []) :
    (∃ m, bodyLoop (fuel + 1) ('[' :: rest) st = PRes.failed m) ∨
    bodyLoop (fuel + 1) ('[' :: rest) st = PRes.panicked ∨
    (∃ inner after, scanBracketAux rest 1 [] = some (inner, after) ∧
      bodyLoop (fuel + 1) ('[' :: rest) st =
        bodyLoop fuel after { st with nextModIsGap := false }) := by
  cases hscan : scanBracketAux rest 1 [] with
  | none =>
    left
    exact ⟨lit "unclosed square bracket", by simp [bodyLoop, hscan]⟩
  | some p =>
    obtain ⟨inner, after⟩ := p
    cases hmod : bracketModO st.nextModIsGap inner with
    | none =>
      right; left
      simp [bodyLoop, hscan, hmod]
    | some mod =>
      right; right
      refine ⟨inner, after, rfl, ?_⟩
      simp [bodyLoop, hscan, hmod, hbase]

/-- One `bodyLoop` step on a `{...}` group with no residue consumed yet:
unless the step errors or panics, the loop continues past the group with
the state unchanged — the modification object is dropped. -/
theorem bodyLoop_leading_brace_discard (fuel : Nat) (rest : Str) (st : BodyState)
    (hbase : st.baseSequence = []) :
    (∃ m, bodyLoop (fuel + 1) ('{' :: rest) st = PRes.failed m) ∨
    bodyLoop (fuel + 1) ('{' :: rest) st = PRes.panicked ∨
    (∃ j, indexChar '}' rest = some j ∧
      bodyLoop (fuel + 1) ('{' :: rest) st = bodyLoop fuel (rest.drop (j + 1)) st) := by
  cases hj : indexChar '}' rest with
  | none =>
    left
    exact ⟨lit "unclosed curly brace", by simp [bodyLoop, hj]⟩
  | some j =>
    cases hmod : createModification (rest.take j) { isAmbiguous := true } with
    | none =>
      right; left
      simp [bodyLoop, hj, hmod]
    | some mod =>
      right; right
      refine ⟨j, rfl, ?_⟩
      simp [bodyLoop, hj, hmod, hbase]


/-- C9: a balanced `[...]` or `{...}` modification group reached by the
residue body before any residue character has been consumed is silently
dropped (unless building the modification object errors or panics): the
loop continues past the group without touching the modification map.
Concretely, `"[Acetyl]PEPTIDE"` (no N-terminal dash) parses without error
into base sequence `PEPTIDE` with a completely empty modification map,
and serializes back to plain `PEPTIDE`. -/
theorem leading_mod_silently_discarded :
    (∀ fuel rest (st : BodyState), st.baseSequence = [] →
      (∃ m, bodyLoop (fuel + 1) ('[' :: rest) st = PRes.failed m) ∨
      bodyLoop (fuel + 1) ('[' :: rest) st = PRes.panicked ∨
      (∃ inner after, scanBracketAux rest 1 [] = some (inner, after) ∧
        bodyLoop (fuel + 1) ('[' :: rest) st =
          bodyLoop fuel after { st with nextModIsGap := false })) ∧
    (∀ fuel rest (st : BodyState), st.baseSequence = [] →
      (∃ m, bodyLoop (fuel + 1) ('{' :: rest) st = PRes.failed m) ∨
      bodyLoop (fuel + 1) ('{' :: rest) st = PRes.panicked ∨
      (∃ j, indexChar '}' rest = some j ∧
        bodyLoop (fuel + 1) ('{' :: rest) st = bodyLoop fuel (rest.drop (j + 1)) st)) ∧
    goParse (lit "[Acetyl]PEPTIDE") = PRes.ok { baseSequence := lit "PEPTIDE" } ∧
    fpIsOk (fromProformaTop (lit "[Acetyl]PEPTIDE")) = true ∧
    fpSerialized (fromProformaTop (lit "[Acetyl]PEPTIDE")) = lit "PEPTIDE" :=
  ⟨bodyLoop_leading_bracket_discard, bodyLoop_leading_brace_discard,
   by decide, by decide, by decide⟩

/-- Witness for `leading_mod_silently_discarded`: the bracket conjunct at
the empty body state. -/
theorem leading_mod_discard_witness :
    (∃ m, bodyLoop 1 ('[' :: lit "Acetyl]X") ({} : BodyState) = PRes.failed m) ∨
    bodyLoop 1 ('[' :: lit "Acetyl]X") ({} : BodyState) = PRes.panicked ∨
    (∃ inner after, scanBracketAux (lit "Acetyl]X") 1 [] = some (inner, after) ∧
      bodyLoop 1 ('[' :: lit "Acetyl]X") ({} : BodyState) =
        bodyLoop 0 after { ({} : BodyState) with nextModIsGap := false }) :=
  leading_mod_silently_discarded.1 0 (lit "Acetyl]X") {} rfl

end Sequal

namespace Sequal

/-! ## Claim C6: unknown-position blocks and their serialization -/

/-- One unknown-position `[mod]^count` block: the digits after `^` expand
the bracket content to that many pending copies. -/
theorem unknownLoop_caret_block (fuel : Nat) (rest inner a2 : Str) (i : Nat)
    (pending : List Str)
    (hscan : scanBracketAux rest 1 [] = some (inner, '^' :: a2))
    (hds : a2.takeWhile Char.isDigit ≠ []) :
    unknownLoop (fuel + 1) ('[' :: rest) i pending =
      unknownLoop fuel (a2.drop (a2.takeWhile Char.isDigit).length)
        (i + inner.length + 2 + (1 + (a2.takeWhile Char.isDigit).length))
        (pending ++ List.replicate (digitsToNat (a2.takeWhile Char.isDigit)) inner) := by
  simp [unknownLoop, hscan, hds]

/-- One unknown-position `[mod]` block without a `^count` suffix: exactly
one pending copy. -/
theorem unknownLoop_plain_block (fuel : Nat) (rest inner after : Str) (i : Nat)
    (pending : List Str)
    (hscan : scanBracketAux rest 1 [] = some (inner, after))
    (hne : after.head? ≠ some '^') :
    unknownLoop (fuel + 1) ('[' :: rest) i pending =
      unknownLoop fuel after (i + inner.length + 2) (pending ++ [inner]) := by
  cases after with
  | nil => simp [unknownLoop, hscan]
  | cons c a2 =>
    have hc : c ≠ '^' := by
      intro h
      exact hne (by rw [h]; rfl)
    simp [unknownLoop, hscan, hc]

/-- `cumLoop` keeps the map a singleton at key −4 and appends one entry
per flushed string. -/
theorem cumLoop_singleton (flushed : List Str) :
    ∀ (l : List GoMod) (mp : List (Int × List GoMod)),
      cumLoop flushed [((-4 : Int), l)] = PRes.ok mp →
      ∃ l', mp = [((-4 : Int), l')] ∧ l'.length = l.length + flushed.length := by
  induction flushed with
  | nil =>
    intro l mp h
    refine ⟨l, ?_, by simp⟩
    cases h
    rfl
  | cons ms rest ih =>
    intro l mp h
    unfold cumLoop at h
    cases hcm : createModification ms { isUnknownPosition := true } with
    | none =>
      rw [hcm] at h
      exact PRes.noConfusion h
    | some mod =>
      rw [hcm] at h
      have h' : cumLoop rest [((-4 : Int), l ++ [mod])] = PRes.ok mp := h
      obtain ⟨l', hmp, hlen⟩ := ih (l ++ [mod]) mp h'
      refine ⟨l', hmp, ?_⟩
      simp at hlen ⊢
      omega

/-- `createUnknownMods` puts one entry at virtual position −4 per flushed
string and touches no other position. -/
theorem createUnknownMods_neg4 (flushed : List Str) (mp : List (Int × List GoMod))
    (h : createUnknownMods flushed = PRes.ok mp) :
    (modsGet mp (-4)).length = flushed.length ∧
    ∀ pos : Int, pos ≠ -4 → modsGet mp pos = [] := by
  cases flushed with
  | nil =>
    cases h
    exact ⟨rfl, fun pos _ => rfl⟩
  | cons ms rest =>
    unfold createUnknownMods cumLoop at h
    cases hcm : createModification ms { isUnknownPosition := true } with
    | none =>
      rw [hcm] at h
      exact PRes.noConfusion h
    | some mod =>
      rw [hcm] at h
      have h' : cumLoop rest [((-4 : Int), [mod])] = PRes.ok mp := h
      obtain ⟨l', hmp, hlen⟩ := cumLoop_singleton rest [mod] mp h'
      subst hmp
      constructor
      · simp [modsGet, List.find?]
        simp at hlen
        omega
      · intro pos hpos
        simp [modsGet, List.find?,
          decide_eq_false (show ¬((-4 : Int) = pos) from fun hh => hpos hh.symm)]

/-- Left fold of three-part appends, flattened. -/
theorem foldl_append3 {α : Type} (f g h : α → Str) :
    ∀ (l : List α) (acc : Str),
      l.foldl (fun a t => a ++ f t ++ g t ++ h t) acc =
        acc ++ (l.map (fun t => f t ++ g t ++ h t)).flatten
  | [], acc => by simp
  | t :: l, acc => by
    simp only [List.foldl_cons, List.map_cons, List.flatten_cons,
      foldl_append3 f g h l (acc ++ f t ++ g t ++ h t)]
    simp [List.append_assoc]

/-- The serializer's unknown-position section: one `[text]…?` block per
distinct rendered text, with `^count` exactly when the text occurs more
than once among the −4 modifications. -/
theorem serializeUnknownMods_blocks (mods : List GoMod) :
    serializeUnknownMods mods =
      (((mods.map modToProforma).dedup).map (fun t =>
        '[' :: (t ++ [']']) ++
          (if 1 < (mods.map modToProforma).count t then
            '^' :: natDigits ((mods.map modToProforma).count t) else []) ++ ['?'])).flatten := by
  have h := foldl_append3 (fun t : Str => '[' :: (t ++ [']']))
    (fun t => if 1 < (mods.map modToProforma).count t then
      '^' :: natDigits ((mods.map modToProforma).count t) else [])
    (fun _ => ['?']) ((mods.map modToProforma).dedup) []
  simpa [serializeUnknownMods] using h

/-- C6: an unknown-position block `[mod]^count` expands to `count` pending
copies of the bracket content (one copy when `^count` is absent), the
flushed copies become exactly that many modification entries at virtual
position −4 and nowhere else, and the serializer emits one
`[text]`-block per distinct rendered text with `^count` exactly when the
text occurs more than once, each block suffixed `?`.  Concretely,
`"[Phospho]^2?PEPTIDE"` parses to two entries at −4 and round-trips, and
`"[Phospho][Phospho]?PEP"` serializes to `"[Phospho]^2?PEP"`. -/
theorem unknown_position_count_roundtrip :
    (∀ (fuel : Nat) (rest inner a2 : Str) (i : Nat) (pending : List Str),
      scanBracketAux rest 1 [] = some (inner, '^' :: a2) →
      a2.takeWhile Char.isDigit ≠ [] →
      unknownLoop (fuel + 1) ('[' :: rest) i pending =
        unknownLoop fuel (a2.drop (a2.takeWhile Char.isDigit).length)
          (i + inner.length + 2 + (1 + (a2.takeWhile Char.isDigit).length))
          (pending ++ List.replicate (digitsToNat (a2.takeWhile Char.isDigit)) inner)) ∧
    (∀ (fuel : Nat) (rest inner after : Str) (i : Nat) (pending : List Str),
      scanBracketAux rest 1 [] = some (inner, after) →
      after.head? ≠ some '^' →
      unknownLoop (fuel + 1) ('[' :: rest) i pending =
        unknownLoop fuel after (i + inner.length + 2) (pending ++ [inner])) ∧
    (∀ (flushed : List Str) (mp : List (Int × List GoMod)),
      createUnknownMods flushed = PRes.ok mp →
      (modsGet mp (-4)).length = flushed.length ∧
      ∀ pos : Int, pos ≠ -4 → modsGet mp pos = []) ∧
    (∀ mods : List GoMod,
      serializeUnknownMods mods =
        (((mods.map modToProforma).dedup).map (fun t =>
          '[' :: (t ++ [']']) ++
            (if 1 < (mods.map modToProforma).count t then
              '^' :: natDigits ((mods.map modToProforma).count t) else []) ++ ['?'])).flatten) ∧
    (modsGet (parseModsAssoc (goParse (lit "[Phospho]^2?PEPTIDE"))) (-4)).length = 2 ∧
    (modsGet (parseModsAssoc (goParse (lit "[Phospho]?PEPTIDE"))) (-4)).length = 1 ∧
    fpSerialized (fromProformaTop (lit "[Phospho]^2?PEPTIDE")) = lit "[Phospho]^2?PEPTIDE" ∧
    fpSerialized (fromProformaTop (lit "[Phospho][Phospho]?PEP")) = lit "[Phospho]^2?PEP" ∧
    fpSerialized (fromProformaTop (lit "[Phospho]?PEP")) = lit "[Phospho]?PEP" :=
  ⟨unknownLoop_caret_block, unknownLoop_plain_block, createUnknownMods_neg4,
   serializeUnknownMods_blocks, by decide, by decide, by decide, by decide, by decide⟩

/-- Witness for `unknown_position_count_roundtrip`: the caret conjunct on
the concrete block `[Phospho]^2?X`. -/
theorem unknown_position_count_witness :
    unknownLoop 1 ('[' :: lit "Phospho]^2?X") 0 [] =
      unknownLoop 0 ((lit "2?X").drop ((lit "2?X").takeWhile Char.isDigit).length)
        (0 + (lit "Phospho").length + 2 + (1 + ((lit "2?X").takeWhile Char.isDigit).length))
        ([] ++ List.replicate (digitsToNat ((lit "2?X").takeWhile Char.isDigit)) (lit "Phospho")) :=
  unknown_position_count_roundtrip.1 0 (lit "Phospho]^2?X") (lit "Phospho") (lit "2?X") 0 []
    (by decide) (by decide)

end Sequal


namespace Sequal

/-! ## Claim C4: decimal rendering groundwork -/

/-- Bounds of a decimal digit character. -/
theorem isDigit_toNat (c : Char) (h : c.isDigit = true) : 48 ≤ c.toNat ∧ c.toNat ≤ 57 := by
  simp [Char.isDigit] at h
  obtain ⟨h1, h2⟩ := h
  exact ⟨h1, h2⟩

/-- `digitChar` inverts the digit-value map on digit characters. -/
theorem digitChar_toNat_sub (c : Char) (h : c.isDigit = true) :
    digitChar (c.toNat - 48) = c := by
  obtain ⟨h1, h2⟩ := isDigit_toNat c h
  obtain ⟨k, hk, hk1, hk2⟩ : ∃ k, c.toNat = k ∧ 48 ≤ k ∧ k ≤ 57 := ⟨c.toNat, rfl, h1, h2⟩
  rw [hk, ← Char.ofNat_toNat c, hk]
  interval_cases k <;> decide

/-- `digitChar` produces digit characters. -/
theorem digitChar_isDigit (k : Nat) (h : k ≤ 9) : (digitChar k).isDigit = true := by
  interval_cases k <;> decide

/-- `digitChar` of a positive digit value is not `0`. -/
theorem digitChar_ne_zero (k : Nat) (h1 : 1 ≤ k) (h2 : k ≤ 9) : digitChar k ≠ '0' := by
  interval_cases k <;> decide

/-- Folding one more digit onto a decimal value. -/
theorem digitsToNat_append_single (d : Str) (c : Char) :
    digitsToNat (d ++ [c]) = digitsToNat d * 10 + (c.toNat - 48) := by
  simp [digitsToNat, List.foldl_append]

/-- The digit fold never decreases below a positive accumulator. -/
theorem digitsToNat_fold_pos (t : Str) : ∀ acc : Nat, 1 ≤ acc →
    1 ≤ t.foldl (fun acc c => acc * 10 + (c.toNat - '0'.toNat)) acc := by
  induction t with
  | nil => intro acc h; simpa using h
  | cons c r ih =>
    intro acc h
    simp only [List.foldl_cons]
    exact ih _ (by omega)

/-- A digit string with a non-zero leading digit has a positive value. -/
theorem digitsToNat_head_pos (c : Char) (t : Str) (hc : c.isDigit = true) (h0 : c ≠ '0') :
    1 ≤ digitsToNat (c :: t) := by
  have h48 : c.toNat ≠ 48 := by
    intro he
    apply h0
    rw [← Char.ofNat_toNat c, he]
  obtain ⟨h1, h2⟩ := isDigit_toNat c hc
  have h0n : ('0' : Char).toNat = 48 := rfl
  unfold digitsToNat
  simp only [List.foldl_cons]
  exact digitsToNat_fold_pos t _ (by omega)

/-- The fuelled digit renderer is fuel-independent above the value. -/
theorem natDigitsAux_congr : ∀ f1 f2 n : Nat, n < f1 → n < f2 →
    natDigitsAux f1 n = natDigitsAux f2 n
  | 0, _, n, h1, _ => absurd h1 (by omega)
  | _ + 1, 0, n, _, h2 => absurd h2 (by omega)
  | f1 + 1, f2 + 1, n, h1, h2 => by
    by_cases h : n < 10
    · simp [natDigitsAux, h]
    · have hd1 : n / 10 < f1 := by omega
      have hd2 : n / 10 < f2 := by omega
      simp only [natDigitsAux, if_neg h]
      rw [natDigitsAux_congr f1 f2 (n / 10) hd1 hd2]

/-- One-digit rendering. -/
theorem natDigits_lt10 (n : Nat) (h : n < 10) : natDigits n = [digitChar n] := by
  simp [natDigits, natDigitsAux, h]

/-- Multi-digit rendering peels the last digit. -/
theorem natDigits_ge10 (n : Nat) (h : 10 ≤ n) :
    natDigits n = natDigits (n / 10) ++ [digitChar (n % 10)] := by
  unfold natDigits
  rw [show natDigitsAux (n + 1) n = natDigitsAux n (n / 10) ++ [digitChar (n % 10)] from by
    simp only [natDigitsAux]
    rw [if_neg (by omega : ¬ n < 10)]]
  rw [natDigitsAux_congr n (n / 10 + 1) (n / 10) (by omega) (by omega)]

/-- The rendering is never empty. -/
theorem natDigits_ne_nil (n : Nat) : natDigits n ≠ [] := by
  by_cases h : n < 10
  · simp [natDigits_lt10 n h]
  · simp [natDigits_ge10 n (by omega)]

/-- The rendering consists of digit characters. -/
theorem natDigits_all_digit (n : Nat) : (natDigits n).all Char.isDigit = true := by
  by_cases h : n < 10
  · rw [natDigits_lt10 n h]
    simp [digitChar_isDigit n (by omega)]
  · rw [natDigits_ge10 n (by omega)]
    have := natDigits_all_digit (n / 10)
    simp [this, digitChar_isDigit (n % 10) (by omega)]
termination_by n
decreasing_by omega

/-- A positive number renders without a leading zero. -/
theorem natDigits_head (n : Nat) (h : 1 ≤ n) : (natDigits n).head? ≠ some '0' := by
  by_cases h10 : n < 10
  · rw [natDigits_lt10 n h10]
    simpa using digitChar_ne_zero n (by omega) (by omega)
  · rw [natDigits_ge10 n (by omega)]
    have ih := natDigits_head (n / 10) (by omega)
    cases hL : natDigits (n / 10) with
    | nil => exact absurd hL (natDigits_ne_nil (n / 10))
    | cons a t =>
      rw [hL] at ih
      simpa using ih
termination_by n
decreasing_by omega

/-- Canonical digit strings (non-empty, all digits, no leading zero)
round-trip through the decimal value. -/
theorem natDigits_digitsToNat (d : Str) (hne : d ≠ []) (hdig : d.all Char.isDigit = true)
    (hz : d.head? ≠ some '0') : natDigits (digitsToNat d) = d := by
  induction d using List.reverseRecOn with
  | nil => exact absurd rfl hne
  | append_singleton d c ih =>
    cases hd : d with
    | nil =>
      subst hd
      simp only [List.nil_append]
      have hcd : c.isDigit = true := by simpa using hdig
      obtain ⟨h1, h2⟩ := isDigit_toNat c hcd
      have hv : digitsToNat [c] = c.toNat - 48 := by
        simp [digitsToNat]
      rw [hv, natDigits_lt10 _ (by omega), digitChar_toNat_sub c hcd]
    | cons c0 t =>
      subst hd
      have hdig' : (c0 :: t).all Char.isDigit = true := by
        simp only [List.all_append, Bool.and_eq_true] at hdig
        exact hdig.1
      have hz' : (c0 :: t).head? ≠ some '0' := by
        simpa using hz
      have hc0 : c0.isDigit = true := by
        simp only [List.all_cons, Bool.and_eq_true] at hdig'
        exact hdig'.1
      have hc0z : c0 ≠ '0' := by simpa using hz'
      have hm : 1 ≤ digitsToNat (c0 :: t) := digitsToNat_head_pos c0 t hc0 hc0z
      have hcd : c.isDigit = true := by
        simp only [List.all_append, List.all_cons, Bool.and_eq_true] at hdig
        simpa using hdig.2
      obtain ⟨h1, h2⟩ := isDigit_toNat c hcd
      have hrt := ih (by intro hh; cases hh) hdig' hz'
      rw [digitsToNat_append_single (c0 :: t) c]
      have hge : 10 ≤ digitsToNat (c0 :: t) * 10 + (c.toNat - 48) := by omega
      rw [natDigits_ge10 _ hge]
      have hdiv : (digitsToNat (c0 :: t) * 10 + (c.toNat - 48)) / 10 = digitsToNat (c0 :: t) := by
        omega
      have hmod : (digitsToNat (c0 :: t) * 10 + (c.toNat - 48)) % 10 = c.toNat - 48 := by
        omega
      rw [hdiv, hmod, hrt, digitChar_toNat_sub c hcd]

/-- `takeWhile` passes over a block that satisfies the predicate. -/
theorem takeWhile_append_all (p : Char → Bool) (d r : Str) (h : d.all p = true) :
    (d ++ r).takeWhile p = d ++ r.takeWhile p := by
  induction d with
  | nil => simp
  | cons c t ih =>
    simp only [List.all_cons, Bool.and_eq_true] at h
    simp [List.takeWhile_cons, h.1, ih h.2]

/-- `dropWhile` passes over a block that satisfies the predicate. -/
theorem dropWhile_append_all (p : Char → Bool) (d r : Str) (h : d.all p = true) :
    (d ++ r).dropWhile p = r.dropWhile p := by
  induction d with
  | nil => simp
  | cons c t ih =>
    simp only [List.all_cons, Bool.and_eq_true] at h
    simp [List.dropWhile_cons, h.1, ih h.2]

/-- Evaluation of `matchCount` when the head is not `(`. -/
theorem matchCount_cons_ne_paren (c0 : Char) (r : Str) (h : c0 ≠ '(') :
    matchCount (c0 :: r) =
      (if (c0 :: r).takeWhile Char.isDigit ≠ [] ∧
          ((c0 :: r).takeWhile Char.isDigit).head? ≠ some '0'
       then some ((c0 :: r).dropWhile Char.isDigit) else none) := by
  rw [matchCount.eq_def]
  split
  next heq =>
    rw [List.cons.injEq] at heq
    exact absurd heq.1 h
  next => rfl

/-- Evaluation of `matchCount` on a parenthesised head. -/
theorem matchCount_paren_eval (r : Str) :
    matchCount ('(' :: r) =
      (if r.takeWhile Char.isDigit ≠ [] ∧ (r.takeWhile Char.isDigit).head? ≠ some '0' then
        match r.dropWhile Char.isDigit with
        | ')' :: r3 => some r3
        | _ => none
      else none) := rfl

/-- A grammar count followed by a remainder that does not begin with a
digit is consumed exactly. -/
theorem matchCount_count_append (c rest : Str) (hc : CountStr c)
    (hrest : ∀ d, rest.head? = some d → d.isDigit = false) :
    matchCount (c ++ rest) = some rest := by
  have hrtw : rest.takeWhile Char.isDigit = [] := by
    cases hr : rest with
    | nil => simp
    | cons d t2 => simp [List.takeWhile_cons, hrest d (by rw [hr]; rfl)]
  have hrdw : rest.dropWhile Char.isDigit = rest := by
    cases hr : rest with
    | nil => simp
    | cons d t2 => simp [List.dropWhile_cons, hrest d (by rw [hr]; rfl)]
  cases hc with
  | bare n hn =>
    have hall : (natDigits n).all Char.isDigit = true := natDigits_all_digit n
    obtain ⟨c0, t, hct⟩ : ∃ c0 t, natDigits n = c0 :: t := by
      cases hnd : natDigits n with
      | nil => exact absurd hnd (natDigits_ne_nil n)
      | cons a b => exact ⟨a, b, rfl⟩
    have hc0 : c0.isDigit = true := by
      rw [hct] at hall
      simp only [List.all_cons, Bool.and_eq_true] at hall
      exact hall.1
    have hc0p : c0 ≠ '(' := by
      intro he
      rw [he] at hc0
      exact absurd hc0 (by decide)
    have htw : (natDigits n ++ rest).takeWhile Char.isDigit = natDigits n := by
      rw [takeWhile_append_all _ _ _ hall, hrtw, List.append_nil]
    have hdw : (natDigits n ++ rest).dropWhile Char.isDigit = rest := by
      rw [dropWhile_append_all _ _ _ hall, hrdw]
    have hz : c0 ≠ '0' := by
      have := natDigits_head n hn
      rw [hct] at this
      simpa using this
    rw [hct] at htw hdw ⊢
    rw [List.cons_append, matchCount_cons_ne_paren c0 (t ++ rest) hc0p]
    rw [List.cons_append] at htw hdw
    rw [htw, hdw]
    simp [hz]
  | paren n hn =>
    have hall : (natDigits n).all Char.isDigit = true := natDigits_all_digit n
    have htw : (natDigits n ++ ')' :: rest).takeWhile Char.isDigit = natDigits n := by
      rw [takeWhile_append_all _ _ _ hall]
      simp [List.takeWhile_cons]
    have hdw : (natDigits n ++ ')' :: rest).dropWhile Char.isDigit = ')' :: rest := by
      rw [dropWhile_append_all _ _ _ hall]
      simp [List.dropWhile_cons]
    have heq : ('(' :: (natDigits n ++ [')'])) ++ rest =
        '(' :: (natDigits n ++ ')' :: rest) := by
      simp
    rw [heq, matchCount_paren_eval, htw, hdw]
    have hzz : (natDigits n).head? ≠ some '0' := natDigits_head n hn
    simp [natDigits_ne_nil n, hzz]

/-- Inversion of `matchCount`: a successful count consumes a grammar
count. -/
theorem matchCount_inv (r rest : Str) (h : matchCount r = some rest) :
    ∃ c, CountStr c ∧ r = c ++ rest := by
  cases r with
  | nil => exact absurd h (by simp [matchCount])
  | cons c0 r' =>
    by_cases hp : c0 = '('
    · subst hp
      rw [matchCount_paren_eval, ite_eq_iff] at h
      rcases h with ⟨hcond, h⟩ | ⟨_, h⟩
      · obtain ⟨hdne, hdz⟩ := hcond
        cases hdwc : r'.dropWhile Char.isDigit with
        | nil => rw [hdwc] at h; exact absurd h (by simp)
        | cons a t =>
          rw [hdwc] at h
          by_cases ha : a = ')'
          · subst ha
            simp only [Option.some.injEq] at h
            subst h
            set d := r'.takeWhile Char.isDigit with hd
            have hddig : d.all Char.isDigit = true := List.all_takeWhile
            obtain ⟨d0, dt, hdc⟩ : ∃ d0 dt, d = d0 :: dt := by
              cases hdd : d with
              | nil => exact absurd hdd hdne
              | cons a b => exact ⟨a, b, rfl⟩
            have hd0 : d0.isDigit = true := by
              rw [hdc] at hddig
              simp only [List.all_cons, Bool.and_eq_true] at hddig
              exact hddig.1
            have hd0z : d0 ≠ '0' := by
              rw [hdc] at hdz
              simpa using hdz
            have hpos : 1 ≤ digitsToNat d := by
              rw [hdc]
              exact digitsToNat_head_pos d0 dt hd0 hd0z
            have hrt : natDigits (digitsToNat d) = d :=
              natDigits_digitsToNat d hdne hddig (by rw [hdc]; simpa using hd0z)
            have hr' : r' = d ++ ')' :: t := by
              conv_lhs => rw [← List.takeWhile_append_dropWhile Char.isDigit r']
              rw [← hd, hdwc]
            refine ⟨'(' :: (d ++ [')']), ?_, ?_⟩
            · have := CountStr.paren (digitsToNat d) hpos
              rwa [hrt] at this
            · rw [hr']
              simp
          · split at h
            · rename_i heq
              rw [List.cons.injEq] at heq
              exact absurd heq.1 ha
            · exact absurd h (by simp)
      · exact absurd h (by simp)
    · rw [matchCount_cons_ne_paren c0 r' hp, ite_eq_iff] at h
      rcases h with ⟨hcond, h⟩ | ⟨_, h⟩
      · obtain ⟨hdne, hdz⟩ := hcond
        simp only [Option.some.injEq] at h
        set d := (c0 :: r').takeWhile Char.isDigit with hd
        have hddig : d.all Char.isDigit = true := List.all_takeWhile
        obtain ⟨d0, dt, hdc⟩ : ∃ d0 dt, d = d0 :: dt := by
          cases hdd : d with
          | nil => exact absurd hdd hdne
          | cons a b => exact ⟨a, b, rfl⟩
        have hd0 : d0.isDigit = true := by
          rw [hdc] at hddig
          simp only [List.all_cons, Bool.and_eq_true] at hddig
          exact hddig.1
        have hd0z : d0 ≠ '0' := by
          rw [hdc] at hdz
          simpa using hdz
        have hpos : 1 ≤ digitsToNat d := by
          rw [hdc]
          exact digitsToNat_head_pos d0 dt hd0 hd0z
        have hrt : natDigits (digitsToNat d) = d :=
          natDigits_digitsToNat d hdne hddig (by rw [hdc]; simpa using hd0z)
        refine ⟨d, ?_, ?_⟩
        · have := CountStr.bare (digitsToNat d) hpos
          rwa [hrt] at this
        · conv_lhs => rw [← List.takeWhile_append_dropWhile Char.isDigit (c0 :: r')]
          rw [← hd, ← h]
      · exact absurd h (by simp)

/-- Each known monosaccharide name matches itself exactly. -/
theorem matchMono_self (m : Str) (hm : m ∈ monosOrdered) : matchMono m = some m := by
  fin_cases hm <;> decide

/-- A known monosaccharide followed by the first character of a count is
matched as itself: the longer names extend the shorter ones only by the
letters `N`, `S` and `P`, never by a digit or `(`. -/
theorem matchMono_token_count (m : Str) (hm : m ∈ monosOrdered) (d : Char) (tail : Str)
    (hd : d.isDigit = true ∨ d = '(') :
    matchMono (m ++ d :: tail) = some m := by
  have hN : (('N' : Char) == d) = false := by
    rcases hd with h | h
    · simp
      intro he
      rw [← he] at h
      exact absurd h (by decide)
    · rw [h]; decide
  have hS : (('S' : Char) == d) = false := by
    rcases hd with h | h
    · simp
      intro he
      rw [← he] at h
      exact absurd h (by decide)
    · rw [h]; decide
  have hP : (('P' : Char) == d) = false := by
    rcases hd with h | h
    · simp
      intro he
      rw [← he] at h
      exact absurd h (by decide)
    · rw [h]; decide
  fin_cases hm <;>
    simp [matchMono, monosOrdered, lit, List.find?, List.isPrefixOf, hN, hS, hP]

/-- Shape of a known monosaccharide name: non-empty, starting with a
letter (so neither a digit, nor `(`, nor `{`). -/
theorem monosOrdered_shape (m : Str) (hm : m ∈ monosOrdered) :
    ∃ c0 tl, m = c0 :: tl ∧ c0.isDigit = false ∧ c0 ≠ '{' ∧ c0 ≠ '(' := by
  fin_cases hm <;> exact ⟨_, _, rfl, by decide, by decide, by decide⟩

/-- `matchCustom` only fires on `{`. -/
theorem matchCustom_cons_ne_brace (c0 : Char) (r : Str) (h : c0 ≠ '{') :
    matchCustom (c0 :: r) = none := by
  rw [matchCustom.eq_def]
  split
  next heq =>
    rw [List.cons.injEq] at heq
    exact absurd heq.1 h
  next => rfl

/-- Raw evaluation of `matchCustom` behind a `{`. -/
theorem matchCustom_brace_raw (r : Str) :
    matchCustom ('{' :: r) =
      (if r.takeWhile Char.isAlphanum = [] then none
       else
         match
           (match r.dropWhile Char.isAlphanum with
            | '}' :: r2 => some r2
            | ':' :: 'z' :: sgn :: r2 =>
              if sgn = '+' ∨ sgn = '-' then
                if r2.takeWhile Char.isDigit ≠ [] then
                  match r2.dropWhile Char.isDigit with
                  | '}' :: r3 => some r3
                  | _ => none
                else none
              else none
            | _ => none) with
         | none => none
         | some r2 =>
           match matchCount r2 with
           | some r3 => some (r.takeWhile Char.isAlphanum, true, r3)
           | none => some (r.takeWhile Char.isAlphanum, false, r2)) := rfl

/-- `matchCustom` on a plain brace token followed by anything. -/
theorem matchCustom_brace_eval (A X : Str) (hA : A ≠ []) (hAl : A.all Char.isAlphanum = true) :
    matchCustom ('{' :: (A ++ '}' :: X)) =
      (match matchCount X with
       | some r3 => some (A, true, r3)
       | none => some (A, false, X)) := by
  have htw : (A ++ '}' :: X).takeWhile Char.isAlphanum = A := by
    rw [takeWhile_append_all _ _ _ hAl]
    simp [List.takeWhile_cons]
  have hdw : (A ++ '}' :: X).dropWhile Char.isAlphanum = '}' :: X := by
    rw [dropWhile_append_all _ _ _ hAl]
    simp [List.dropWhile_cons]
  rw [matchCustom_brace_raw, htw, hdw, if_neg hA]
  rfl

/-- `matchCustom` on a charged brace token followed by anything. -/
theorem matchCustom_charge_eval (A : Str) (sgn : Char) (ds X : Str) (hA : A ≠ [])
    (hAl : A.all Char.isAlphanum = true) (hs : sgn = '+' ∨ sgn = '-')
    (hds : ds ≠ []) (hdig : ds.all Char.isDigit = true) :
    matchCustom ('{' :: (A ++ ':' :: 'z' :: sgn :: (ds ++ '}' :: X))) =
      (match matchCount X with
       | some r3 => some (A, true, r3)
       | none => some (A, false, X)) := by
  have htw : (A ++ ':' :: 'z' :: sgn :: (ds ++ '}' :: X)).takeWhile Char.isAlphanum = A := by
    rw [takeWhile_append_all _ _ _ hAl]
    simp [List.takeWhile_cons]
  have hdw : (A ++ ':' :: 'z' :: sgn :: (ds ++ '}' :: X)).dropWhile Char.isAlphanum =
      ':' :: 'z' :: sgn :: (ds ++ '}' :: X) := by
    rw [dropWhile_append_all _ _ _ hAl]
    simp [List.dropWhile_cons]
  have htwd : (ds ++ '}' :: X).takeWhile Char.isDigit = ds := by
    rw [takeWhile_append_all _ _ _ hdig]
    simp [List.takeWhile_cons]
  have hdwd : (ds ++ '}' :: X).dropWhile Char.isDigit = '}' :: X := by
    rw [dropWhile_append_all _ _ _ hdig]
    simp [List.dropWhile_cons]
  rw [matchCustom_brace_raw, htw, hdw, if_neg hA]
  rw [show (match (':' :: 'z' :: sgn :: (ds ++ '}' :: X) : Str) with
        | '}' :: r2 => some r2
        | ':' :: 'z' :: sgn :: r2 =>
          if sgn = '+' ∨ sgn = '-' then
            if r2.takeWhile Char.isDigit ≠ [] then
              match r2.dropWhile Char.isDigit with
              | '}' :: r3 => some r3
              | _ => none
            else none
          else none
        | _ => none) = some X from by
    rw [show (match (':' :: 'z' :: sgn :: (ds ++ '}' :: X) : Str) with
        | '}' :: r2 => some r2
        | ':' :: 'z' :: sgn :: r2 =>
          if sgn = '+' ∨ sgn = '-' then
            if r2.takeWhile Char.isDigit ≠ [] then
              match r2.dropWhile Char.isDigit with
              | '}' :: r3 => some r3
              | _ => none
            else none
          else none
        | _ => none) =
      (if sgn = '+' ∨ sgn = '-' then
        if (ds ++ '}' :: X).takeWhile Char.isDigit ≠ [] then
          match (ds ++ '}' :: X).dropWhile Char.isDigit with
          | '}' :: r3 => some r3
          | _ => none
        else none
      else none) from rfl]
    rw [if_pos hs, htwd, hdwd, if_pos hds]
    rfl]

/-- Inversion of the after-brace scan inside `matchCustom`. -/
theorem afterBrace_inv (r1 r2 : Str)
    (h : (match r1 with
          | '}' :: r2 => some r2
          | ':' :: 'z' :: sgn :: r2 =>
            if sgn = '+' ∨ sgn = '-' then
              if r2.takeWhile Char.isDigit ≠ [] then
                match r2.dropWhile Char.isDigit with
                | '}' :: r3 => some r3
                | _ => none
              else none
            else none
          | _ => none) = some r2) :
    r1 = '}' :: r2 ∨
    ∃ sgn ds, (sgn = '+' ∨ sgn = '-') ∧ ds ≠ [] ∧ ds.all Char.isDigit = true ∧
      r1 = ':' :: 'z' :: sgn :: (ds ++ '}' :: r2) := by
  split at h
  next u v =>
    simp only [Option.some.injEq] at h
    left
    rw [h]
  next x0 sgnv r2v =>
    rw [ite_eq_iff] at h
    rcases h with ⟨hsgn, h⟩ | ⟨_, h⟩
    · rw [ite_eq_iff] at h
      rcases h with ⟨hdne, h⟩ | ⟨_, h⟩
      · split at h
        next r3 heq2 =>
          simp only [Option.some.injEq] at h
          rw [h] at heq2
          right
          refine ⟨sgnv, r2v.takeWhile Char.isDigit, hsgn, hdne, List.all_takeWhile, ?_⟩
          have hx : r2v = r2v.takeWhile Char.isDigit ++ '}' :: r2 := by
            conv_lhs => rw [← List.takeWhile_append_dropWhile Char.isDigit r2v]
            rw [heq2]
          conv_lhs => rw [hx]
        next => exact absurd h (by simp)
      · exact absurd h (by simp)
    · exact absurd h (by simp)
  next => exact absurd h (by simp)

/-- Inversion of `matchCustom`: a successful custom match consumes a brace
token, and when a count was reported, a grammar count. -/
theorem matchCustom_inv (s A : Str) (hc : Bool) (rest : Str)
    (h : matchCustom s = some (A, hc, rest)) :
    A ≠ [] ∧ A.all Char.isAlphanum = true ∧
    ∃ t, ((t = '{' :: (A ++ ['}'])) ∨
          (∃ sgn ds, (sgn = '+' ∨ sgn = '-') ∧ ds ≠ [] ∧ ds.all Char.isDigit = true ∧
            t = '{' :: (A ++ ':' :: 'z' :: sgn :: (ds ++ ['}'])))) ∧
      ((hc = false ∧ s = t ++ rest) ∨
       (hc = true ∧ ∃ c, CountStr c ∧ s = t ++ (c ++ rest))) := by
  cases s with
  | nil => exact absurd h (by rw [show matchCustom [] = none from rfl]; simp)
  | cons c0 r =>
    by_cases hbr : c0 = '{'
    case neg => exact absurd h (by rw [matchCustom_cons_ne_brace c0 r hbr]; simp)
    subst hbr
    rw [matchCustom_brace_raw, ite_eq_iff] at h
    rcases h with ⟨_, h⟩ | ⟨hAne, h⟩
    · exact absurd h (by simp)
    cases hab : (match r.dropWhile Char.isAlphanum with
        | '}' :: r2 => some r2
        | ':' :: 'z' :: sgn :: r2 =>
          if sgn = '+' ∨ sgn = '-' then
            if r2.takeWhile Char.isDigit ≠ [] then
              match r2.dropWhile Char.isDigit with
              | '}' :: r3 => some r3
              | _ => none
            else none
          else none
        | _ => none) with
    | none =>
      rw [hab] at h
      exact absurd h (by simp)
    | some r2 =>
      rw [hab] at h
      have h' : (match matchCount r2 with
          | some r3 => some (r.takeWhile Char.isAlphanum, true, r3)
          | none => some (r.takeWhile Char.isAlphanum, false, r2)) =
            some (A, hc, rest) := h
      have hr : r = r.takeWhile Char.isAlphanum ++ r.dropWhile Char.isAlphanum :=
        (List.takeWhile_append_dropWhile Char.isAlphanum r).symm
      have hAall : (r.takeWhile Char.isAlphanum).all Char.isAlphanum = true :=
        List.all_takeWhile
      have hinv := afterBrace_inv (r.dropWhile Char.isAlphanum) r2 hab
      cases hmc : matchCount r2 with
      | some r3 =>
        rw [hmc] at h'
        simp only [Option.some.injEq, Prod.mk.injEq] at h'
        obtain ⟨hA, hhc, hrest⟩ := h'
        rw [hrest] at hmc
        rw [hA] at hAne hAall hr
        refine ⟨hAne, hAall, ?_⟩
        obtain ⟨c, hcs, hr2⟩ := matchCount_inv r2 rest hmc
        rcases hinv with hinv | ⟨sgn, ds, hsg, hdsne, hdsall, hinv⟩
        · refine ⟨'{' :: (A ++ ['}']), Or.inl rfl, Or.inr ⟨hhc.symm, c, hcs, ?_⟩⟩
          rw [List.cons_append]
          rw [show (A ++ ['}']) ++ (c ++ rest) = A ++ '}' :: (c ++ rest) from by simp]
          rw [← hr2, ← hinv]
          conv_lhs => rw [hr]
        · refine ⟨'{' :: (A ++ ':' :: 'z' :: sgn :: (ds ++ ['}'])),
            Or.inr ⟨sgn, ds, hsg, hdsne, hdsall, rfl⟩,
            Or.inr ⟨hhc.symm, c, hcs, ?_⟩⟩
          rw [List.cons_append]
          rw [show (A ++ ':' :: 'z' :: sgn :: (ds ++ ['}'])) ++ (c ++ rest) =
            A ++ ':' :: 'z' :: sgn :: (ds ++ '}' :: (c ++ rest)) from by simp]
          rw [← hr2, ← hinv]
          conv_lhs => rw [hr]
      | none =>
        rw [hmc] at h'
        simp only [Option.some.injEq, Prod.mk.injEq] at h'
        obtain ⟨hA, hhc, hrest⟩ := h'
        rw [hrest] at hinv
        rw [hA] at hAne hAall hr
        refine ⟨hAne, hAall, ?_⟩
        rcases hinv with hinv | ⟨sgn, ds, hsg, hdsne, hdsall, hinv⟩
        · refine ⟨'{' :: (A ++ ['}']), Or.inl rfl, Or.inl ⟨hhc.symm, ?_⟩⟩
          rw [List.cons_append]
          rw [show (A ++ ['}']) ++ rest = A ++ '}' :: rest from by simp]
          rw [← hinv]
          conv_lhs => rw [hr]
        · refine ⟨'{' :: (A ++ ':' :: 'z' :: sgn :: (ds ++ ['}'])),
            Or.inr ⟨sgn, ds, hsg, hdsne, hdsall, rfl⟩, Or.inl ⟨hhc.symm, ?_⟩⟩
          rw [List.cons_append]
          rw [show (A ++ ':' :: 'z' :: sgn :: (ds ++ ['}'])) ++ rest =
            A ++ ':' :: 'z' :: sgn :: (ds ++ '}' :: rest) from by simp]
          rw [← hinv]
          conv_lhs => rw [hr]

/-- One-step evaluation of the glycan loop on a non-empty string. -/
theorem vgLoop_cons (f : Nat) (c0 : Char) (r : Str) :
    vgLoop (f + 1) (c0 :: r) =
      (match matchCustom (c0 :: r) with
       | some (A, hasCount, rest) =>
         if validateFormula A then
           if hasCount then vgLoop f rest else decide (rest = [])
         else false
       | none =>
         match matchMono (c0 :: r) with
         | some m =>
           match matchCount ((c0 :: r).drop m.length) with
           | some rest => vgLoop f rest
           | none => decide ((c0 :: r).drop m.length = [])
         | none => false) := rfl

/-- The head of a grammar count is a digit or `(`. -/
theorem CountStr_head (c : Str) (hc : CountStr c) :
    ∃ d ctl, c = d :: ctl ∧ (d.isDigit = true ∨ d = '(') := by
  cases hc with
  | bare n hn =>
    obtain ⟨c0, t, hct⟩ : ∃ c0 t, natDigits n = c0 :: t := by
      cases hnd : natDigits n with
      | nil => exact absurd hnd (natDigits_ne_nil n)
      | cons a b => exact ⟨a, b, rfl⟩
    have hall := natDigits_all_digit n
    rw [hct] at hall
    simp only [List.all_cons, Bool.and_eq_true] at hall
    exact ⟨c0, t, hct, Or.inl hall.1⟩
  | paren n hn => exact ⟨'(', _, rfl, Or.inr rfl⟩

/-- A grammar token is non-empty and starts with a non-digit that is not a
parenthesis. -/
theorem GlyTok_shape (t : Str) (ht : GlyTok t) :
    ∃ c0 tl, t = c0 :: tl ∧ c0.isDigit = false := by
  cases ht with
  | mono =>
    rename_i hm
    obtain ⟨c0, tl, he, hd, _, _⟩ := monosOrdered_shape t hm
    exact ⟨c0, tl, he, hd⟩
  | custom A hA hAl hF => exact ⟨'{', _, rfl, by decide⟩
  | customCharge A sgn ds hA hAl hF hs hds hdig => exact ⟨'{', _, rfl, by decide⟩

/-- A grammar string never begins with a digit. -/
theorem GlyGrammar_head_not_digit (s : Str) (hs : GlyGrammar s) :
    ∀ d, s.head? = some d → d.isDigit = false := by
  cases hs with
  | nil => intro d hd; cases hd
  | last =>
    rename_i ht
    intro d hd
    obtain ⟨c0, tl, he, hdig⟩ := GlyTok_shape s ht
    rw [he] at hd
    simp only [List.head?_cons, Option.some.injEq] at hd
    rw [← hd]
    exact hdig
  | cons t c rest ht hc hrest =>
    intro d hd
    obtain ⟨c0, tl, he, hdig⟩ := GlyTok_shape t ht
    rw [he] at hd
    simp only [List.cons_append, List.head?_cons, Option.some.injEq] at hd
    rw [← hd]
    exact hdig

/-- Completeness: every grammar string passes the glycan loop, given
enough fuel. -/
theorem vgLoop_complete (s : Str) (hs : GlyGrammar s) :
    ∀ fuel, s.length < fuel → vgLoop fuel s = true := by
  induction hs with
  | nil =>
    intro fuel hf
    cases fuel with
    | zero => omega
    | succ f => rfl
  | last t ht =>
    intro fuel hf
    cases fuel with
    | zero => omega
    | succ f =>
      cases ht with
      | mono =>
        rename_i hm
        obtain ⟨c0, tl, he, _, hbr, _⟩ := monosOrdered_shape t hm
        have hmm := matchMono_self t hm
        have hcu : matchCustom t = none := by
          rw [he]
          exact matchCustom_cons_ne_brace c0 tl hbr
        rw [he] at hmm hcu ⊢
        simp [vgLoop_cons, hcu, hmm, matchCount]
      | custom A hA hAl hF =>
        have hev : matchCustom ('{' :: (A ++ '}' :: [])) = some (A, false, []) :=
          matchCustom_brace_eval A [] hA hAl
        rw [show ('{' :: (A ++ ['}']) : Str) = '{' :: (A ++ '}' :: []) from by simp] at hf ⊢
        simp [vgLoop_cons, hev, hF]
      | customCharge A sgn ds hA hAl hF hsg hds hdig =>
        have hev : matchCustom ('{' :: (A ++ ':' :: 'z' :: sgn :: (ds ++ '}' :: []))) =
            some (A, false, []) :=
          matchCustom_charge_eval A sgn ds [] hA hAl hsg hds hdig
        rw [show ('{' :: (A ++ ':' :: 'z' :: sgn :: (ds ++ ['}'])) : Str) =
          '{' :: (A ++ ':' :: 'z' :: sgn :: (ds ++ '}' :: [])) from by simp] at hf ⊢
        simp [vgLoop_cons, hev, hF]
  | cons t c rest ht hcnt hrest ih =>
    intro fuel hf
    cases fuel with
    | zero => omega
    | succ f =>
      have hcm : matchCount (c ++ rest) = some rest :=
        matchCount_count_append c rest hcnt (GlyGrammar_head_not_digit rest hrest)
      obtain ⟨d, ctl, hcd, hd⟩ := CountStr_head c hcnt
      have hclen : 1 ≤ c.length := by rw [hcd]; simp
      cases ht with
      | mono =>
        rename_i hm
        obtain ⟨c0, tl, he, _, hbr, _⟩ := monosOrdered_shape t hm
        have hmm : matchMono (t ++ (c ++ rest)) = some t := by
          rw [hcd, List.cons_append]
          exact matchMono_token_count t hm d (ctl ++ rest) hd
        have hcu : matchCustom (t ++ (c ++ rest)) = none := by
          rw [he, List.cons_append]
          exact matchCustom_cons_ne_brace c0 (tl ++ (c ++ rest)) hbr
        have hdrop : (t ++ (c ++ rest)).drop t.length = c ++ rest := List.drop_left t (c ++ rest)
        have hlm : 1 ≤ t.length := by rw [he]; simp
        rw [he] at hmm hcu hdrop ⊢
        rw [List.cons_append] at hmm hcu hdrop ⊢
        have hloop : vgLoop f rest = true := by
          apply ih
          simp only [List.length_append] at hf
          omega
        simp [vgLoop_cons, hcu, hmm, hdrop, hcm, hloop]
      | custom A hA hAl hF =>
        have hev : matchCustom ('{' :: (A ++ '}' :: (c ++ rest))) = some (A, true, rest) := by
          have h0 := matchCustom_brace_eval A (c ++ rest) hA hAl
          rw [hcm] at h0
          exact h0
        have heq : ('{' :: (A ++ ['}']) : Str) ++ (c ++ rest) =
            '{' :: (A ++ '}' :: (c ++ rest)) := by simp
        have hloop : vgLoop f rest = true := by
          apply ih
          rw [heq] at hf
          simp only [List.length_cons, List.length_append] at hf
          omega
        rw [heq]
        simp [vgLoop_cons, hev, hF, hloop]
      | customCharge A sgn ds hA hAl hF hsg hds hdig =>
        have hev : matchCustom ('{' :: (A ++ ':' :: 'z' :: sgn :: (ds ++ '}' :: (c ++ rest)))) =
            some (A, true, rest) := by
          have h0 := matchCustom_charge_eval A sgn ds (c ++ rest) hA hAl hsg hds hdig
          rw [hcm] at h0
          exact h0
        have heq : ('{' :: (A ++ ':' :: 'z' :: sgn :: (ds ++ ['}'])) : Str) ++ (c ++ rest) =
            '{' :: (A ++ ':' :: 'z' :: sgn :: (ds ++ '}' :: (c ++ rest))) := by simp
        have hloop : vgLoop f rest = true := by
          apply ih
          rw [heq] at hf
          simp only [List.length_cons, List.length_append] at hf
          omega
        rw [heq]
        simp [vgLoop_cons, hev, hF, hloop]

/-- Soundness: every string accepted by the glycan loop is generated by
the grammar. -/
theorem vgLoop_sound : ∀ fuel s, vgLoop fuel s = true → GlyGrammar s := by
  intro fuel
  induction fuel with
  | zero =>
    intro s h
    exact absurd h (by rw [show vgLoop 0 s = false from rfl]; simp)
  | succ f ih =>
    intro s h
    cases s with
    | nil => exact GlyGrammar.nil
    | cons c0 r =>
      rw [vgLoop_cons] at h
      cases hmc : matchCustom (c0 :: r) with
      | some tup =>
        obtain ⟨A, hasCount, rest⟩ := tup
        rw [hmc] at h
        replace h : (if validateFormula A = true then
            if hasCount = true then vgLoop f rest else decide (rest = [])
          else false) = true := h
        by_cases hF : validateFormula A = true
        case neg =>
          rw [if_neg hF] at h
          exact absurd h (by simp)
        rw [if_pos hF] at h
        obtain ⟨hA, hAl, t, htok, hcase⟩ := matchCustom_inv (c0 :: r) A hasCount rest hmc
        have htok' : GlyTok t := by
          rcases htok with htok | ⟨sgn, ds, hsg, hdsne, hdsall, htok⟩
          · rw [htok]
            exact GlyTok.custom A hA hAl hF
          · rw [htok]
            exact GlyTok.customCharge A sgn ds hA hAl hF hsg hdsne hdsall
        rcases hcase with ⟨hhc, hseq⟩ | ⟨hhc, c, hcs, hseq⟩
        · rw [hhc] at h
          simp at h
          rw [hseq, h, List.append_nil]
          exact GlyGrammar.last t htok'
        · rw [hhc] at h
          simp at h
          rw [hseq]
          exact GlyGrammar.cons t c rest htok' hcs (ih rest h)
      | none =>
        rw [hmc] at h
        replace h : (match matchMono (c0 :: r) with
            | some m =>
              match matchCount ((c0 :: r).drop m.length) with
              | some rest => vgLoop f rest
              | none => decide ((c0 :: r).drop m.length = [])
            | none => false) = true := h
        cases hmm : matchMono (c0 :: r) with
        | none =>
          rw [hmm] at h
          exact absurd h (by simp)
        | some m =>
          rw [hmm] at h
          replace h : (match matchCount ((c0 :: r).drop m.length) with
              | some rest => vgLoop f rest
              | none => decide ((c0 :: r).drop m.length = [])) = true := h
          have hmm' : monosOrdered.find? (fun mm => mm.isPrefixOf (c0 :: r)) = some m := hmm
          have hmem : m ∈ monosOrdered := List.mem_of_find?_eq_some hmm'
          obtain ⟨x, hx⟩ : ∃ x, (c0 :: r : Str) = m ++ x := by
            have hpre := List.find?_some hmm'
            simp only [List.isPrefixOf_iff_prefix] at hpre
            obtain ⟨x, hx⟩ := hpre
            exact ⟨x, hx.symm⟩
          have hdrop : (c0 :: r).drop m.length = x := by
            rw [hx]
            exact List.drop_left m x
          rw [hdrop] at h
          cases hcmx : matchCount x with
          | some rest =>
            rw [hcmx] at h
            replace h : vgLoop f rest = true := h
            obtain ⟨c, hcs, hxc⟩ := matchCount_inv x rest hcmx
            rw [hx, hxc]
            exact GlyGrammar.cons m c rest (GlyTok.mono m hmem) hcs (ih rest h)
          | none =>
            rw [hcmx] at h
            replace h : decide (x = []) = true := h
            have hxe : x = [] := by simpa using h
            rw [hx, hxe, List.append_nil]
            exact GlyGrammar.last m (GlyTok.mono m hmem)

/-- The glycan validator accepts exactly the grammar strings (after its
own space removal). -/
theorem validateGlycan_iff_grammar (g : Str) :
    validateGlycan g = true ↔ GlyGrammar (g.filter (fun c => decide (c ≠ ' '))) := by
  constructor
  · intro h
    exact vgLoop_sound _ _ h
  · intro h
    exact vgLoop_complete _ h _ (by omega)

/-- C4: the glycan validator accepts exactly the strings of the token
grammar — sequences of known monosaccharide names or custom brace tokens
with a validated formula, each followed by the decimal rendering of a
count of at least 1 (bare or parenthesised), the count omissible only on
the final token — up to the validator's own removal of spaces; and the
three concrete examples of the claim. -/
theorem glycan_validator_token_grammar :
    (∀ g : Str, validateGlycan g = true ↔ GlyGrammar (g.filter (fun c => decide (c ≠ ' ')))) ∧
    validateGlycan (lit "HexNAc") = true ∧
    validateGlycan (lit "HexNAcHex") = false ∧
    validateGlycan (lit "HexNAc0") = false :=
  ⟨validateGlycan_iff_grammar, by decide, by decide, by decide⟩

/-- C8: the parse is not a clean model-xor-error dichotomy — the input
`PEP[Acetyl|U:S#g]TIDE` makes both the chain parser and `FromProforma`
panic (a nil source dereference while processing the piped component)
instead of returning a model or an error; a genuine syntax error such as
the unclosed parenthesis of `ELVIS(PEPTIDE` does surface as an error with
no model. -/
theorem parse_model_xor_error_fails :
    goParse (lit "PEP[Acetyl|U:S#g]TIDE") = PRes.panicked ∧
    fromProformaTop (lit "PEP[Acetyl|U:S#g]TIDE") = PRes.panicked ∧
    goParse (lit "ELVIS(PEPTIDE") = PRes.failed (lit "unclosed parenthesis") ∧
    presIsFailed (fromProformaTop (lit "ELVIS(PEPTIDE")) = true ∧
    fpIsOk (fromProformaTop (lit "ELVIS(PEPTIDE")) = false :=
  ⟨by decide, by decide, by decide, by decide, by decide⟩

end Sequal

